import Mathlib

/-!
Verification of the GBAM columnar writer (`src/gbam_tools/src/writer.rs`).

The writer's own code is embedded faithfully below.  Parts of the repository
that the writer uses but whose sources are not available (`meta.rs`,
`compressor.rs`, `stats.rs`, and the external `bam_tools` field enumeration)
are modelled from the specification; each such definition carries a doc
comment starting with `Modelled from the spec:`.

Bytes are modelled as `Nat`, byte buffers as `List Nat`.  Machine-integer
casts that matter (`as u32`, `try_into::<u32>`) are modelled with explicit
`% 2^32` arithmetic / bounds checks.  A Rust operation that can panic
(out-of-bounds slice copy, `unwrap` on an I/O error) is modelled by an
`Option`/`Outcome` value so the panic is observable.
-/

namespace GBam

/-- Modelled from the spec: the closed BAM field enumeration lives in the
external `bam_tools` crate (not under `src/`).  We include the fields that the
two source files name, together with each variable-sized field's fixed-width
index companion. -/
inductive Fields where
  | RefID
  | Pos
  | Mapq
  | Bin
  | Flags
  | NCigar
  | SequenceLength
  | TemplateLength
  | RawTagsLen
  | LName
  | RawSeqLen
  | ReadName
  | RawQual
  | RawSequence
  | RawTags
  | RawCigar
  deriving DecidableEq

/-- Modelled from the spec: a field is fixed-width or variable-width. -/
inductive FieldType where
  | FixedSized
  | VariableSized
  deriving DecidableEq

/-- Modelled from the spec: classification of the fields (bam_tools
`field_type`, not under `src/`). -/
def field_type (f : Fields) : FieldType :=
  match f with
  | .ReadName | .RawQual | .RawSequence | .RawTags | .RawCigar => .VariableSized
  | _ => .FixedSized

/-- Modelled from the spec: index companions are not data fields; they are
owned by their variable-sized companion (bam_tools `is_data_field`, not under
`src/`). -/
def is_data_field (f : Fields) : Bool :=
  match f with
  | .SequenceLength | .TemplateLength | .RawTagsLen | .LName | .RawSeqLen => false
  | _ => true

/-- Modelled from the spec: the fixed-width index companion of a
variable-sized field (bam_tools `var_size_field_to_index`, not under
`src/`).  No claim depends on the exact pairing. -/
def var_size_field_to_index (f : Fields) : Fields :=
  match f with
  | .ReadName => .LName
  | .RawQual => .SequenceLength
  | .RawSequence => .RawSeqLen
  | .RawTags => .RawTagsLen
  | .RawCigar => .TemplateLength
  | x => x

/-- `U32_SIZE`: width in bytes of the little-endian `u32` index entries. -/
def U32_SIZE : Nat := 4

/-- Little-endian 4-byte encoding of `n as u32` (truncation to 32 bits is
what the `as u32` cast in `VariableColumn::write_record_field` performs). -/
def u32le (n : Nat) : List Nat :=
  [n % 256, n / 2 ^ 8 % 256, n / 2 ^ 16 % 256, n / 2 ^ 24 % 256]

/-- Little-endian 8-byte encoding of a `u64`. -/
def u64le (n : Nat) : List Nat :=
  [n % 256, n / 2 ^ 8 % 256, n / 2 ^ 16 % 256, n / 2 ^ 24 % 256,
   n / 2 ^ 32 % 256, n / 2 ^ 40 % 256, n / 2 ^ 48 % 256, n / 2 ^ 56 % 256]

/-- Modelled from the spec: the per-block min/max statistics state
(`src/gbam_tools/src/stats.rs` is not under `src/`).  The field comparator is
passed to `update` as an argument. -/
structure StatsCollector where
  min_value : Option (List Nat)
  max_value : Option (List Nat)
  deriving DecidableEq

/-- Modelled from the spec: a fresh collector has no min/max yet. -/
def StatsCollector.new : StatsCollector := ⟨none, none⟩

/-- Modelled from the spec: `reset` clears the collected min/max at a block
boundary. -/
def StatsCollector.reset (_s : StatsCollector) : StatsCollector := ⟨none, none⟩

/-- Modelled from the spec: fold one record's raw bytes into the running
min/max under the field comparator `cmp`. -/
def StatsCollector.update (cmp : List Nat → List Nat → Ordering)
    (s : StatsCollector) (data : List Nat) : StatsCollector :=
  { min_value :=
      match s.min_value with
      | none => some data
      | some m => if cmp data m = .lt then some data else some m
    max_value :=
      match s.max_value with
      | none => some data
      | some m => if cmp data m = .gt then some data else some m }

/-- The per-field column buffer (`Inner` in `writer.rs`). -/
structure Inner where
  stats_collector : Option StatsCollector
  buffer : List Nat
  offset : Nat
  field : Fields
  rec_count : Nat
  block_num : Nat
  deriving DecidableEq

/-- `Inner::new`: fresh buffer; the Rust constructor builds a collector
exactly when a comparator was supplied, which we record as `hasStats`. -/
def Inner.new (f : Fields) (hasStats : Bool) : Inner :=
  { stats_collector := if hasStats then some StatsCollector.new else none
    buffer := []
    offset := 0
    field := f
    rec_count := 0
    block_num := 0 }

/-- `Inner::flush_required`: at least one record is accepted even if it
exceeds `SIZE_LIMIT` (`sl`, the process-wide constant, passed explicitly
because its value lives outside `src/`). -/
def Inner.flush_required (inn : Inner) (dataLen : Nat) (sl : Nat) : Bool :=
  decide (0 < inn.offset) && decide (sl < inn.offset + dataLen)

/-- `Vec::resize(n, 0)` on a byte vector. -/
def listResize (l : List Nat) (n : Nat) : List Nat :=
  if n ≤ l.length then l.take n else l ++ List.replicate (n - l.length) 0

/-- `Inner::write_data`.  The conditional grow happens only when
`buffer.len() < SIZE_LIMIT`; the slice copy
`buffer[offset..offset+data.len()]` panics when it reaches past the end of
the buffer, which we model by returning `none`.  `rec_count` is a `u32`. -/
def Inner.write_data (inn : Inner) (data : List Nat) (sl : Nat) : Option Inner :=
  let buffer :=
    if inn.buffer.length < sl then listResize inn.buffer (max data.length sl)
    else inn.buffer
  if inn.offset + data.length ≤ buffer.length then
    some { inn with
            buffer := buffer.take inn.offset ++ data
                        ++ buffer.drop (inn.offset + data.length)
            offset := inn.offset + data.length
            rec_count := (inn.rec_count + 1) % 2 ^ 32 }
  else none

/-- `Inner::reset_for_new_block`: stats reset, cursor and record count
cleared, `block_num` (a `u32`) incremented. -/
def Inner.reset_for_new_block (inn : Inner) : Inner :=
  { inn with
      stats_collector := inn.stats_collector.map StatsCollector.reset
      offset := 0
      rec_count := 0
      block_num := (inn.block_num + 1) % 2 ^ 32 }

/-- `BlockInfo` from `writer.rs`. -/
structure BlockInfo where
  numitems : Nat
  uncompr_size : Nat
  field : Fields
  max_value : Option (List Nat)
  min_value : Option (List Nat)
  deriving DecidableEq

/-- `BlockInfo::default`. -/
def BlockInfo.default : BlockInfo :=
  { numitems := 0, uncompr_size := 0, field := .RefID
    max_value := none, min_value := none }

/-- `Inner::generate_block_info`: snapshot of the column state, including the
collected min/max. -/
def Inner.generate_block_info (inn : Inner) : BlockInfo :=
  { numitems := inn.rec_count
    uncompr_size := inn.offset
    field := inn.field
    max_value := inn.stats_collector.bind (fun st => st.max_value)
    min_value := inn.stats_collector.bind (fun st => st.min_value) }

/-- `OrderingKey` from `compressor.rs` (declaration visible through
`writer.rs`): either a real per-field sequence number or the sentinel used
for recycled buffers. -/
inductive OrderingKey where
  | Key : Nat → OrderingKey
  | Empty : OrderingKey
  deriving DecidableEq

/-- `CompressTask`: the result handed back by the compression pipeline.
`buf` is the compressed payload for real tasks (it is both written to the
file and swapped back into the flushed column as the recycled buffer). -/
structure CompressTask where
  ordering_key : OrderingKey
  buf : List Nat
  block_info : BlockInfo
  deriving DecidableEq

/-- Modelled from the spec: the compression pipeline
(`src/gbam_tools/src/compressor.rs` is not under `src/`).  We model it as a
queue of finished tasks: compression is applied at submission time and the
nondeterministic completion order of the worker pool is modelled as FIFO
(the ordering-independence of the catalog is proved separately over
arbitrary completion orders).  Per the spec, a submitted block with zero
uncompressed payload ("a column with `offset == 0` emits no trailing
block") comes back carrying the `Empty` sentinel, so it is never sunk. -/
structure Compressor where
  queue : List CompressTask
  deriving DecidableEq

/-- Modelled from the spec: a fresh pipeline has nothing in flight. -/
def Compressor.new : Compressor := ⟨[]⟩

/-- Modelled from the spec: `Compressor::compress_block` enqueues a job; the
codec's effect on the bytes is the abstract function `compress`. -/
def Compressor.compress_block (c : Compressor) (key : OrderingKey)
    (info : BlockInfo) (data : List Nat) (compress : List Nat → List Nat) :
    Compressor :=
  if info.uncompr_size = 0 then
    ⟨c.queue ++ [{ ordering_key := .Empty, buf := data, block_info := info }]⟩
  else
    ⟨c.queue ++ [{ ordering_key := key, buf := compress data, block_info := info }]⟩

/-- Modelled from the spec: `Compressor::get_compr_block` yields one
completed task, or a recycled `Empty` task before any real work has flowed
through. -/
def Compressor.get_compr_block (c : Compressor) : CompressTask × Compressor :=
  match c.queue with
  | [] => ({ ordering_key := .Empty, buf := [], block_info := BlockInfo.default }, ⟨[]⟩)
  | t :: rest => (t, ⟨rest⟩)

/-- Modelled from the spec: `Compressor::finish` drains the remaining
in-flight tasks. -/
def Compressor.finish (c : Compressor) : List CompressTask × Compressor :=
  (c.queue, ⟨[]⟩)

/-- Modelled from the spec: the codec enumeration (`meta.rs` is not under
`src/`); only one codec is honored per file. -/
inductive Codecs where
  | Gzip
  | Lz4
  deriving DecidableEq

/-- Modelled from the spec: one catalog entry
(`BlockMeta` lives in `meta.rs`, not under `src/`; its five fields are used
directly by `writer.rs` and given by the spec's catalog schema). -/
structure BlockMeta where
  seekpos : Nat
  numitems : Nat
  block_size : Nat
  max_value : Option (List Nat)
  min_value : Option (List Nat)
  deriving DecidableEq

/-- Modelled from the spec: `BlockMeta::default`, used to fill gaps by the
sink's resize step. -/
def BlockMeta.default : BlockMeta :=
  { seekpos := 0, numitems := 0, block_size := 0
    max_value := none, min_value := none }

/-- Modelled from the spec: the catalog (`FileMeta` lives in `meta.rs`, not
under `src/`): one honored codec, an ordered block list per field, and the
reference sequences. -/
structure FileMeta where
  codec : Codecs
  blocks : Fields → List BlockMeta
  refSeqs : List (String × Int)

/-- Modelled from the spec: `FileMeta::new` starts every field's block list
empty. -/
def FileMeta.new (c : Codecs) (refs : List (String × Int)) : FileMeta :=
  { codec := c, blocks := fun _ => [], refSeqs := refs }

/-- Modelled from the spec: `FileMeta::get_field_codec` (only one codec is
honored per file). -/
def FileMeta.get_field_codec (m : FileMeta) (_f : Fields) : Codecs := m.codec

/-- Modelled from the spec: read accessor for a field's block list. -/
def FileMeta.get_blocks (m : FileMeta) (f : Fields) : List BlockMeta :=
  m.blocks f

/-- Modelled from the spec: write accessor for a field's block list (the
Rust `get_blocks` returns a mutable reference). -/
def FileMeta.set_blocks (m : FileMeta) (f : Fields) (bl : List BlockMeta) :
    FileMeta :=
  { m with blocks := fun g => if g = f then bl else m.blocks g }

/-- The mock seekable output: a byte vector plus a cursor.  Writing past the
end first pads with zeros (the gap left by the header reservation seek). -/
structure MockFile where
  data : List Nat
  pos : Nat
  deriving DecidableEq

/-- One `write_all` on the byte vector: overwrite at the cursor, extending
as needed. -/
def MockFile.writeBytes (f : MockFile) (bytes : List Nat) : MockFile :=
  let padded := f.data ++ List.replicate (f.pos - f.data.length) 0
  { data := padded.take f.pos ++ bytes ++ padded.drop (f.pos + bytes.length)
    pos := f.pos + bytes.length }

/-- The sink as seen by the writer: the mock file, a trace of the write
calls performed (position, bytes), and a fault model: the `opCount`-th I/O
operation fails when `failsAt` names it. -/
structure FSink where
  file : MockFile
  trace : List (Nat × List Nat)
  failsAt : Option Nat
  opCount : Nat
  deriving DecidableEq

/-- `write_all` on the sink. -/
def FSink.write_all (s : FSink) (bytes : List Nat) : Except Nat FSink :=
  if s.failsAt = some s.opCount then .error s.opCount
  else .ok { s with
              file := s.file.writeBytes bytes
              trace := s.trace ++ [(s.file.pos, bytes)]
              opCount := s.opCount + 1 }

/-- `seek(SeekFrom::Current(0))`: returns the cursor. -/
def FSink.seek_current (s : FSink) : Except Nat (FSink × Nat) :=
  if s.failsAt = some s.opCount then .error s.opCount
  else .ok ({ s with opCount := s.opCount + 1 }, s.file.pos)

/-- `seek(SeekFrom::Start(p))`. -/
def FSink.seek_start (s : FSink) (p : Nat) : Except Nat FSink :=
  if s.failsAt = some s.opCount then .error s.opCount
  else .ok { s with file := { s.file with pos := p }, opCount := s.opCount + 1 }

/-- The observable outcome of running writer code: a normal result, an I/O
error propagated with `?`, a panic (`unwrap` on an error, or an
out-of-bounds slice copy), or loop-fuel exhaustion (used to state
termination of the per-record retry loop). -/
inductive Outcome (α : Type) where
  | ok : α → Outcome α
  | ioError : Nat → Outcome α
  | panicked : Outcome α
  | spin : Outcome α

/-- Sequencing of outcomes. -/
def Outcome.bind {α β : Type} : Outcome α → (α → Outcome β) → Outcome β
  | .ok a, f => f a
  | .ioError e, _ => .ioError e
  | .panicked, _ => .panicked
  | .spin, _ => .spin

/-- One bit-step of the reflected CRC-32 (polynomial `0xEDB88320`). -/
def crc32_step (c : Nat) : Nat :=
  if c % 2 = 1 then 0xEDB88320 ^^^ (c / 2) else c / 2

/-- `calc_crc_for_meta_bytes` from `writer.rs`: the standard CRC-32
(`crc32fast::Hasher` is an external crate implementing CRC-32/ISO-HDLC). -/
def calc_crc_for_meta_bytes (bytes : List Nat) : Nat :=
  (bytes.foldl (fun c b => crc32_step^[8] (c ^^^ b % 256)) 0xFFFFFFFF) ^^^ 0xFFFFFFFF

/-- Modelled from the spec: the magic bytes `"geeBAM10"`. -/
def GBAM_MAGIC : List Nat := [0x67, 0x65, 0x65, 0x42, 0x41, 0x4D, 0x31, 0x30]

/-- Modelled from the spec: the fixed size of the reserved header
(`FILE_INFO_SIZE` lives in `meta.rs`, not under `src/`): 8 magic bytes, 2
version bytes, a `u64` catalog offset and a `u32` CRC. -/
def FILE_INFO_SIZE : Nat := 22

/-- Modelled from the spec: the byte serialization of `FileInfo`
(`Into<Vec<u8>>` lives in `meta.rs`, not under `src/`; the layout is the
spec's byte-exact file layout). -/
def fileInfoBytes (major minor : Nat) (catalog_offset crc : Nat) : List Nat :=
  GBAM_MAGIC ++ [major, minor] ++ u64le catalog_offset ++ u32le crc

/-- `generate_meta` from `writer.rs`: records the current file offset as the
block's `seekpos`; note that it stores `None` for both `max_value` and
`min_value`.  The `unwrap` on the seek makes an I/O failure a panic. -/
def generate_meta (s : FSink) (numitems : Nat) (block_size : Nat) :
    Outcome (FSink × BlockMeta) :=
  match s.seek_current with
  | .error _ => .panicked
  | .ok (s', seekpos) =>
      .ok (s', { seekpos := seekpos, numitems := numitems
                 block_size := block_size
                 max_value := none, min_value := none })

/-- The sink's resize-to-`key+1`-then-place scheme on a field's block list
(`write_data_and_update_meta`, lines 213–219 of `writer.rs`): `resize` fills
any gap with defaults, then the meta is stored at index `key`. -/
def placeAt (l : List BlockMeta) (key : Nat) (m : BlockMeta) : List BlockMeta :=
  (if l.length ≤ key then l ++ List.replicate (key + 1 - l.length) BlockMeta.default
   else l).set key m

/-- `write_data_and_update_meta` from `writer.rs`: build the `BlockMeta` at
the current offset, write the compressed bytes (`unwrap`: failure panics),
and place the meta at index `key` of the field's block list.  The
`compressed_size.try_into::<u32>().unwrap()` panics when the compressed
block does not fit in a `u32`. -/
def write_data_and_update_meta (s : FSink) (meta : FileMeta) (key : Nat)
    (task : CompressTask) : Outcome (FSink × FileMeta) :=
  let compressed_size := task.buf.length
  if compressed_size < 2 ^ 32 then
    (generate_meta s task.block_info.numitems compressed_size).bind
      (fun r =>
        match r.1.write_all task.buf with
        | .error _ => .panicked
        | .ok s2 =>
            .ok (s2, meta.set_blocks task.block_info.field
                  (placeAt (meta.get_blocks task.block_info.field) key r.2)))
  else .panicked

/-- The `if let OrderingKey::Key(key) = completed_task.ordering_key` block
of `flush_field_buffer`: sink the completed task when it carries a real
key. -/
def sink_completed_task (s : FSink) (meta : FileMeta) (task : CompressTask) :
    Outcome (FSink × FileMeta) :=
  match task.ordering_key with
  | .Key key => write_data_and_update_meta s meta key task
  | .Empty => .ok (s, meta)

/-- `flush_field_buffer` from `writer.rs`: take one completed task from the
pipeline, sink it if it carries a real key, swap its buffer into the column,
submit the column's filled buffer under the column's `block_num`, and reset
the column for a new block. -/
def flush_field_buffer (s : FSink) (meta : FileMeta) (comp : Compressor)
    (inn : Inner) (compress : Codecs → List Nat → List Nat) :
    Outcome (FSink × FileMeta × Compressor × Inner) :=
  let popped := comp.get_compr_block
  let completed_task := popped.1
  (sink_completed_task s meta completed_task).bind (fun r =>
    let data := inn.buffer
    let inn1 : Inner := { inn with buffer := completed_task.buf }
    let codec := r.2.get_field_codec inn1.field
    let comp2 := popped.2.compress_block (.Key inn1.block_num)
      inn1.generate_block_info data (compress codec)
    .ok (r.1, r.2, comp2, inn1.reset_for_new_block))

/-- `WriteStatus` from `writer.rs`; the `Full` payload (a mutable reference
to the inner needing a flush) is modelled by recording which of the
column's inners is at capacity. -/
inductive WriteStatus where
  | Written
  | FullPayload
  | FullIndex
  deriving DecidableEq

/-- The two column strategies of `writer.rs`: `FixedColumn` wraps one
`Inner`, `VariableColumn` wraps the payload `Inner` plus the fixed-width
index `Inner`. -/
inductive Column where
  | FixedColumn : Inner → Column
  | VariableColumn : Inner → Inner → Column
  deriving DecidableEq

/-- A raw BAM record, accessed only through `get_bytes(field)`. -/
def Record : Type := Fields → List Nat

/-- `Column::write_record_field` for both strategies.  The `cmp` argument is
the stats comparator configured for the field (owned by the Rust
`StatsCollector`).  `none` models the panic of an out-of-bounds
`write_data` copy.  For a variable column the index inner's capacity is
checked first (against the 4-byte entry), then the payload's; on success the
payload is written first and then the 4-byte little-endian value of the
payload's new end-offset (`inner.offset as u32`) is appended to the index. -/
def Column.write_record_field (col : Column) (rec : Record)
    (cmp : List Nat → List Nat → Ordering) (sl : Nat) :
    Option (Column × WriteStatus) :=
  match col with
  | .FixedColumn inn =>
      let data := rec inn.field
      if inn.flush_required data.length sl then
        some (.FixedColumn inn, .FullPayload)
      else
        let inn' := { inn with
          stats_collector := inn.stats_collector.map (fun st => StatsCollector.update cmp st data) }
        match inn'.write_data data sl with
        | none => none
        | some inn2 => some (.FixedColumn inn2, .Written)
  | .VariableColumn inn index =>
      let data := rec inn.field
      if index.flush_required U32_SIZE sl then
        some (.VariableColumn inn index, .FullIndex)
      else if inn.flush_required data.length sl then
        some (.VariableColumn inn index, .FullPayload)
      else
        let inn' := { inn with
          stats_collector := inn.stats_collector.map (fun st => StatsCollector.update cmp st data) }
        match inn'.write_data data sl with
        | none => none
        | some inn2 =>
            let idx_buf := u32le inn2.offset
            match index.write_data idx_buf sl with
            | none => none
            | some index2 => some (.VariableColumn inn2 index2, .Written)

/-- Flush the inner that `write_record_field` reported as full (the target
of the `Full(&mut Inner)` reference), rebuilding the column around the
flushed inner. -/
def Column.flushFull (col : Column) (st : WriteStatus) (s : FSink)
    (meta : FileMeta) (comp : Compressor)
    (compress : Codecs → List Nat → List Nat) :
    Outcome (FSink × FileMeta × Compressor × Column) :=
  match col, st with
  | .FixedColumn inn, _ =>
      (flush_field_buffer s meta comp inn compress).bind
        (fun r => .ok (r.1, r.2.1, r.2.2.1, .FixedColumn r.2.2.2))
  | .VariableColumn inn index, .FullIndex =>
      (flush_field_buffer s meta comp index compress).bind
        (fun r => .ok (r.1, r.2.1, r.2.2.1, .VariableColumn inn r.2.2.2))
  | .VariableColumn inn index, _ =>
      (flush_field_buffer s meta comp inn compress).bind
        (fun r => .ok (r.1, r.2.1, r.2.2.1, .VariableColumn r.2.2.2 index))

/-- The per-record retry loop of `Writer::push_record`
(`while let Full(inner) = col.write_record_field(rec) { flush }`), with
explicit fuel; `spin` reports fuel exhaustion, so proving the result is
never `spin` at fuel 3 establishes termination of the Rust loop.  The
returned `Nat` counts the flush iterations taken. -/
def writeLoop (fuel : Nat) (s : FSink) (meta : FileMeta) (comp : Compressor)
    (col : Column) (rec : Record) (cmp : List Nat → List Nat → Ordering)
    (sl : Nat) (compress : Codecs → List Nat → List Nat) :
    Outcome (FSink × FileMeta × Compressor × Column × Nat) :=
  match fuel with
  | 0 => .spin
  | fuel + 1 =>
      match col.write_record_field rec cmp sl with
      | none => .panicked
      | some (col', .Written) => .ok (s, meta, comp, col', 0)
      | some (col', st) =>
          (col'.flushFull st s meta comp compress).bind (fun r =>
            (writeLoop fuel r.1 r.2.1 r.2.2.1 r.2.2.2 rec cmp sl compress).bind
              (fun r2 => .ok (r2.1, r2.2.1, r2.2.2.1, r2.2.2.2.1, r2.2.2.2.2 + 1)))

/-- The state of `Writer<WS>`: catalog, columns, pipeline, and the sink
(`inner` in the Rust struct). -/
structure WriterState where
  file_meta : FileMeta
  columns : List Column
  compressor : Compressor
  inner : FSink

/-- The column-by-column body of `Writer::push_record`: each column runs the
retry loop (fuel 3 suffices; see the termination theorem). -/
def pushColumns (rec : Record) (cmp : List Nat → List Nat → Ordering)
    (sl : Nat) (compress : Codecs → List Nat → List Nat) :
    List Column → FSink → FileMeta → Compressor →
    Outcome (FSink × FileMeta × Compressor × List Column)
  | [], s, m, c => .ok (s, m, c, [])
  | col :: rest, s, m, c =>
      (writeLoop 3 s m c col rec cmp sl compress).bind (fun r =>
        (pushColumns rec cmp sl compress rest r.1 r.2.1 r.2.2.1).bind
          (fun r2 => .ok (r2.1, r2.2.1, r2.2.2.1, r.2.2.2.1 :: r2.2.2.2)))

/-- `Writer::push_record`. -/
def Writer.push_record (w : WriterState) (rec : Record)
    (cmp : List Nat → List Nat → Ordering) (sl : Nat)
    (compress : Codecs → List Nat → List Nat) : Outcome WriterState :=
  (pushColumns rec cmp sl compress w.columns w.inner w.file_meta w.compressor).bind
    (fun r => .ok { file_meta := r.2.1, columns := r.2.2.2
                    compressor := r.2.2.1, inner := r.1 })

/-- The leftover-flushing loop at the start of `Writer::finish`: for each
drained column, flush its primary inner and then, when present, its index
inner (`get_inners`). -/
def flushColumnsAtFinish (compress : Codecs → List Nat → List Nat) :
    List Column → FSink → FileMeta → Compressor →
    Outcome (FSink × FileMeta × Compressor)
  | [], s, m, c => .ok (s, m, c)
  | .FixedColumn inn :: rest, s, m, c =>
      (flush_field_buffer s m c inn compress).bind (fun r =>
        flushColumnsAtFinish compress rest r.1 r.2.1 r.2.2.1)
  | .VariableColumn inn index :: rest, s, m, c =>
      (flush_field_buffer s m c inn compress).bind (fun r =>
        (flush_field_buffer r.1 r.2.1 r.2.2.1 index compress).bind (fun r2 =>
          flushColumnsAtFinish compress rest r2.1 r2.2.1 r2.2.2.1))

/-- The drain loop of `Writer::finish`: sink every remaining task that
carries a real ordering key. -/
def drainTasks : List CompressTask → FSink → FileMeta →
    Outcome (FSink × FileMeta)
  | [], s, m => .ok (s, m)
  | t :: rest, s, m =>
      match t.ordering_key with
      | .Key k =>
          (write_data_and_update_meta s m k t).bind (fun r =>
            drainTasks rest r.1 r.2)
      | .Empty => drainTasks rest s m

/-- The steps of `Writer::finish` after the drain (lines 152–165 of
`writer.rs`): record the catalog offset, serialize the catalog
(`serde_json`, modelled by the abstract `serialize` argument), compute its
CRC, write it, read the total size, seek back to the start (`unwrap`:
failure panics) and patch the header.  Returns the writer state left behind
(columns drained) and `total_bytes_written`. -/
def finish_tail (s2 : FSink) (meta : FileMeta)
    (serialize : FileMeta → List Nat) : Outcome (WriterState × Nat) :=
  match s2.seek_current with
  | .error e => .ioError e
  | .ok (s3, meta_start_pos) =>
      let main_meta_bytes := serialize meta
      let crc32 := calc_crc_for_meta_bytes main_meta_bytes
      match s3.write_all main_meta_bytes with
      | .error e => .ioError e
      | .ok s4 =>
          match s4.seek_current with
          | .error e => .ioError e
          | .ok (s5, total_bytes_written) =>
              match s5.seek_start 0 with
              | .error _ => .panicked
              | .ok s6 =>
                  match s6.write_all (fileInfoBytes 1 0 meta_start_pos crc32) with
                  | .error e => .ioError e
                  | .ok s7 =>
                      .ok ({ file_meta := meta, columns := []
                             compressor := Compressor.new, inner := s7 },
                           total_bytes_written)

/-- `Writer::finish`: flush leftovers, drain the pipeline, then run the
tail (catalog write and header patch). -/
def Writer.finish (w : WriterState)
    (compress : Codecs → List Nat → List Nat)
    (serialize : FileMeta → List Nat) : Outcome (WriterState × Nat) :=
  (flushColumnsAtFinish compress w.columns w.inner w.file_meta w.compressor).bind
    (fun r =>
      let drained := r.2.2.finish
      (drainTasks drained.1 r.1 r.2.1).bind (fun r2 =>
        finish_tail r2.1 r2.2 serialize))

/-- The column built for one data field in `Writer::new`: variable-sized
fields get a payload inner plus an index inner over the companion field
(which never has a comparator). -/
def mkColumn (hasStats : Fields → Bool) (f : Fields) : Column :=
  match field_type f with
  | .FixedSized => .FixedColumn (Inner.new f (hasStats f))
  | .VariableSized =>
      .VariableColumn (Inner.new f (hasStats f))
        (Inner.new (var_size_field_to_index f) false)

/-- `Writer::new`: seek the sink to `FILE_INFO_SIZE` (reserving the header;
`unwrap`: failure panics) and build one column per data field. -/
def Writer.new (fields : List Fields) (hasStats : Fields → Bool)
    (codec : Codecs) (refs : List (String × Int)) (s0 : FSink) :
    Outcome WriterState :=
  match s0.seek_start FILE_INFO_SIZE with
  | .error _ => .panicked
  | .ok s1 =>
      .ok { file_meta := FileMeta.new codec refs
            columns := (fields.filter (fun f => is_data_field f)).map (mkColumn hasStats)
            compressor := Compressor.new
            inner := s1 }

/-! ### Helper lemmas -/

theorem flush_required_eq_false_iff (inn : Inner) (dl sl : Nat) :
    inn.flush_required dl sl = false ↔ inn.offset = 0 ∨ inn.offset + dl ≤ sl := by
  simp only [Inner.flush_required, Bool.and_eq_false_iff, decide_eq_false_iff_not]
  omega

theorem flush_required_of_offset_zero (inn : Inner) (dl sl : Nat)
    (h : inn.offset = 0) : inn.flush_required dl sl = false := by
  rw [flush_required_eq_false_iff]; exact Or.inl h

theorem listResize_length (l : List Nat) (n : Nat) :
    (listResize l n).length = n := by
  unfold listResize
  split
  · simpa using by omega
  · simp; omega

theorem length_u32le (n : Nat) : (u32le n).length = 4 := rfl

/-! ### C7: `reset_for_new_block` is not idempotent (`block_num` advances) -/

/-- C7 counterexample: on the fresh `Pos` column buffer, applying
`reset_for_new_block` twice does not yield the same `Inner` state as
applying it once — the double application has `block_num = 2`, the single
one `block_num = 1`. -/
theorem reset_for_new_block_not_idempotent :
    (Inner.new .Pos false).reset_for_new_block.reset_for_new_block ≠
      (Inner.new .Pos false).reset_for_new_block := by decide

/-- C7 (amended): applying `reset_for_new_block` twice with no writes in
between agrees with applying it once on `stats_collector`, `offset`,
`rec_count`, `buffer` and `field`, but not on `block_num`: every
application increments `block_num` (mod `2^32`), so the double application
ends one higher than the single one. -/
theorem reset_for_new_block_twice (inn : Inner) :
    (inn.reset_for_new_block.reset_for_new_block).stats_collector
        = inn.reset_for_new_block.stats_collector ∧
    (inn.reset_for_new_block.reset_for_new_block).offset
        = inn.reset_for_new_block.offset ∧
    (inn.reset_for_new_block.reset_for_new_block).rec_count
        = inn.reset_for_new_block.rec_count ∧
    (inn.reset_for_new_block.reset_for_new_block).buffer
        = inn.reset_for_new_block.buffer ∧
    (inn.reset_for_new_block.reset_for_new_block).field
        = inn.reset_for_new_block.field ∧
    (inn.reset_for_new_block.reset_for_new_block).block_num
        = (inn.reset_for_new_block.block_num + 1) % 2 ^ 32 := by
  refine ⟨?_, rfl, rfl, rfl, rfl, rfl⟩
  simp only [Inner.reset_for_new_block]
  cases inn.stats_collector <;> rfl

/-! ### C3: bounds of `Inner::write_data` -/

/-- The `Inner` state exhibiting the out-of-bounds copy: a buffer of length
exactly `SIZE_LIMIT` (as a recycled buffer swapped in by the orchestrator
can be) with `offset == 0`. -/
def oobInner : Inner :=
  { stats_collector := none, buffer := [0, 0, 0, 0], offset := 0
    field := .RawSequence, rec_count := 0, block_num := 0 }

/-- C3 counterexample: with `SIZE_LIMIT = 4`, a buffer of length 4 and
`offset = 0`, a 5-byte record satisfies the precondition
`!flush_required(5)`, yet the copy is out of bounds (`write_data` panics,
modelled as `none`): the conditional grow is skipped because
`buffer.len() < SIZE_LIMIT` fails, and `offset + 5 > 4 = buffer.len()`. -/
theorem write_data_out_of_bounds :
    oobInner.flush_required ([1, 2, 3, 4, 5] : List Nat).length 4 = false ∧
      oobInner.write_data [1, 2, 3, 4, 5] 4 = none := by decide

/-- C3 (amended): under the precondition `!flush_required(len(bytes))`
**and** the additional hypothesis that the buffer is still below
`SIZE_LIMIT` (so the grow step runs) or the bytes fit in the current
buffer, the copy is in bounds and afterwards `offset` has grown by
`len(bytes)`, `offset ≤ len(buffer)`, and `rec_count` by 1 (as a `u32`). -/
theorem write_data_in_bounds (inn : Inner) (data : List Nat) (sl : Nat)
    (hpre : inn.flush_required data.length sl = false)
    (hfit : inn.buffer.length < sl ∨ inn.offset + data.length ≤ inn.buffer.length) :
    ∃ inn', inn.write_data data sl = some inn' ∧
      inn'.offset = inn.offset + data.length ∧
      inn'.offset ≤ inn'.buffer.length ∧
      inn'.rec_count = (inn.rec_count + 1) % 2 ^ 32 := by
  rw [flush_required_eq_false_iff] at hpre
  unfold Inner.write_data
  by_cases hb : inn.buffer.length < sl
  · have hlen : (listResize inn.buffer (max data.length sl)).length
        = max data.length sl := listResize_length _ _
    have hle : inn.offset + data.length ≤ max data.length sl := by
      rcases hpre with h0 | hsl
      · have := Nat.le_max_left data.length sl; omega
      · have := Nat.le_max_right data.length sl; omega
    simp only [hb, if_true, hlen, hle, if_pos]
    refine ⟨_, rfl, rfl, ?_, rfl⟩
    simp only [List.length_append, List.length_take, List.length_drop, hlen]
    omega
  · have hle : inn.offset + data.length ≤ inn.buffer.length := by
      rcases hfit with h | h
      · omega
      · exact h
    simp only [hb, if_false, hle, if_pos]
    refine ⟨_, rfl, rfl, ?_, rfl⟩
    simp only [List.length_append, List.length_take, List.length_drop]
    omega

/-- C3 witness: a 1-byte record into a fresh (empty, below-limit) buffer. -/
theorem write_data_in_bounds_witness :
    ((Inner.new .Pos false).flush_required ([7] : List Nat).length 4 = false ∧
      (Inner.new .Pos false).buffer.length < 4) ∧
    ∃ inn', (Inner.new .Pos false).write_data [7] 4 = some inn' ∧
      inn'.offset = (Inner.new .Pos false).offset + ([7] : List Nat).length ∧
      inn'.offset ≤ inn'.buffer.length ∧
      inn'.rec_count = ((Inner.new .Pos false).rec_count + 1) % 2 ^ 32 :=
  ⟨⟨by decide, by decide⟩,
    write_data_in_bounds (Inner.new .Pos false) [7] 4 (by decide)
      (Or.inl (by decide))⟩

/-! ### C2: the sink drops the collected min/max -/

/-- A sink positioned at the end of the reserved header. -/
def c2sink : FSink :=
  { file := { data := List.replicate 22 0, pos := 22 }
    trace := [], failsAt := none, opCount := 0 }

/-- A completed task whose `BlockInfo` carries collected min/max values
(as produced by a column whose comparator was configured). -/
def c2task : CompressTask :=
  { ordering_key := .Key 0, buf := [5, 6]
    block_info := { numitems := 1, uncompr_size := 2, field := .RawSequence
                    max_value := some [7], min_value := some [3] } }

/-- C2: the claim fails on the code.  The flushed block's `BlockInfo`
carries `min = [3]`, `max = [7]`, yet the `BlockMeta` stored in the catalog
by the sink step has `min_value = None` and `max_value = None`:
`generate_meta` hardcodes `None` for both and never consults the task's
`BlockInfo`.  (`seekpos`, `numitems` and `block_size` are stored as the
claim says.) -/
theorem sink_drops_min_max :
    c2task.block_info.min_value = some [3] ∧
    c2task.block_info.max_value = some [7] ∧
    ∃ s' m', write_data_and_update_meta c2sink (FileMeta.new .Gzip []) 0 c2task
        = .ok (s', m') ∧
      m'.get_blocks .RawSequence
        = [{ seekpos := 22, numitems := 1, block_size := 2
             max_value := none, min_value := none }] :=
  ⟨rfl, rfl, _, _, rfl, rfl⟩

/-! ### C5: catalog order is submission order -/

theorem placeAt_length_ge (l : List BlockMeta) (k : Nat) (m : BlockMeta) :
    l.length ≤ (placeAt l k m).length := by
  unfold placeAt
  split <;> simp

theorem lt_placeAt_length (l : List BlockMeta) (k : Nat) (m : BlockMeta) :
    k < (placeAt l k m).length := by
  unfold placeAt
  split <;> simp <;> omega

theorem get?_placeAt_self (l : List BlockMeta) (k : Nat) (m : BlockMeta) :
    (placeAt l k m).get? k = some m := by
  have hk := lt_placeAt_length l k m
  unfold placeAt at hk ⊢
  split at hk <;> rename_i hsplit
  · rw [if_pos hsplit]
    exact List.get?_set_eq_of_lt m (by simpa using hk)
  · rw [if_neg hsplit]
    exact List.get?_set_eq_of_lt m (by simpa using hk)

theorem get?_placeAt_ne (l : List BlockMeta) (j k : Nat) (m : BlockMeta)
    (hne : j ≠ k) (hk : k < l.length) :
    (placeAt l j m).get? k = l.get? k := by
  unfold placeAt
  rw [List.get?_set_ne m _ hne]
  split
  · exact List.get?_append hk
  · rfl

/-- The per-field block list after a sequence of sink placement events. -/
def sinkFold (es : List (Nat × BlockMeta)) (l : List BlockMeta) :
    List BlockMeta :=
  es.foldl (fun acc p => placeAt acc p.1 p.2) l

/-- The placement events later than `k`'s never disturb index `k`. -/
theorem foldl_placeAt_preserve (es : List (Nat × BlockMeta)) :
    ∀ l : List BlockMeta, ∀ k m, k < l.length → l.get? k = some m →
      (∀ p ∈ es, p.1 ≠ k) →
      ((sinkFold es l).get? k = some m) := by
  induction es with
  | nil => intro l k m _ hget _; simpa [sinkFold] using hget
  | cons p rest ih =>
      intro l k m hk hget hne
      simp only [sinkFold, List.foldl_cons]
      refine ih (placeAt l p.1 p.2) k m ?_ ?_ ?_
      · exact Nat.lt_of_lt_of_le hk (placeAt_length_ge l p.1 p.2)
      · rw [get?_placeAt_ne l p.1 k p.2 (hne p (by simp)) hk]
        exact hget
      · intro q hq; exact hne q (by simp [hq])

/-- C5: per-field catalog order is submission order.  First, the sink step
(`write_data_and_update_meta`) updates the field's block list exactly by the
resize-to-`k+1`-then-place scheme (`placeAt`); second, for any completion
order (any interleaving `es₁ ++ (k, m) :: es₂` of sink events in which key
`k` is placed once, as the per-field `block_num` keys are distinct), the
final list holds `m` at index `k` — regardless of the order in which the
other blocks returned from the workers. -/
theorem catalog_order_is_submission_order
    (s : FSink) (meta : FileMeta) (key : Nat) (task : CompressTask)
    (s' : FSink) (m' : FileMeta)
    (hrun : write_data_and_update_meta s meta key task = .ok (s', m'))
    (l : List BlockMeta) (es₁ es₂ : List (Nat × BlockMeta)) (k : Nat)
    (m : BlockMeta) (hk : ∀ p ∈ es₂, p.1 ≠ k) :
    (∃ bm, m'.get_blocks task.block_info.field
        = placeAt (meta.get_blocks task.block_info.field) key bm) ∧
    (sinkFold (es₁ ++ (k, m) :: es₂) l).get? k = some m := by
  constructor
  · simp only [write_data_and_update_meta] at hrun
    split at hrun
    · cases hgen : generate_meta s task.block_info.numitems task.buf.length with
      | ok r =>
          rw [hgen] at hrun
          simp only [Outcome.bind] at hrun
          split at hrun
          · exact Outcome.noConfusion hrun
          · simp only [Outcome.ok.injEq, Prod.mk.injEq] at hrun
            obtain ⟨-, rfl⟩ := hrun
            refine ⟨r.2, ?_⟩
            simp [FileMeta.set_blocks, FileMeta.get_blocks]
      | ioError e => rw [hgen] at hrun; exact Outcome.noConfusion hrun
      | panicked => rw [hgen] at hrun; exact Outcome.noConfusion hrun
      | spin => rw [hgen] at hrun; exact Outcome.noConfusion hrun
    · exact Outcome.noConfusion hrun
  · rw [sinkFold, List.foldl_append]
    simp only [List.foldl_cons]
    exact foldl_placeAt_preserve es₂ _ k m
      (lt_placeAt_length _ k m) (get?_placeAt_self _ k m) hk

/-- C5 witness: two blocks of one field return from the workers in reversed
order (key 1 first, then key 0); the catalog still holds each at its own
index. -/
theorem catalog_order_witness :
    (write_data_and_update_meta c2sink (FileMeta.new .Gzip []) 0 c2task
        = .ok ({ file := { data := List.replicate 22 0 ++ [5, 6], pos := 24 }
                 trace := [(22, [5, 6])], failsAt := none, opCount := 2 },
               (FileMeta.new .Gzip []).set_blocks .RawSequence
                 (placeAt [] 0 { seekpos := 22, numitems := 1, block_size := 2
                                 max_value := none, min_value := none })) ∧
      (∀ p : Nat × BlockMeta, p ∈ ([] : List (Nat × BlockMeta)) → p.1 ≠ 0)) ∧
    (∃ bm, ((FileMeta.new .Gzip []).set_blocks .RawSequence
              (placeAt [] 0 { seekpos := 22, numitems := 1, block_size := 2
                              max_value := none, min_value := none })).get_blocks
            c2task.block_info.field
        = placeAt ((FileMeta.new .Gzip []).get_blocks c2task.block_info.field) 0 bm) ∧
    (sinkFold ([(1, { BlockMeta.default with seekpos := 90 })]
        ++ (0, { BlockMeta.default with seekpos := 40 })
        :: ([] : List (Nat × BlockMeta))) []).get? 0
      = some { BlockMeta.default with seekpos := 40 } :=
  ⟨⟨rfl, by simp⟩,
    catalog_order_is_submission_order c2sink (FileMeta.new .Gzip []) 0 c2task _ _
      rfl [] [(1, { BlockMeta.default with seekpos := 90 })] []
      0 { BlockMeta.default with seekpos := 40 } (by simp)⟩

/-! ### C4: the index entry is the payload end-offset -/

theorem take_drop_middle (X idx Y : List Nat) (n : Nat) (hn : X.length = n) :
    ((X ++ idx ++ Y).drop n).take idx.length = idx := by
  subst hn
  rw [List.append_assoc, List.drop_left, List.take_left]

/-- Inversion of a successful `Inner::write_data`. -/
theorem write_data_some_spec (inn : Inner) (data : List Nat) (sl : Nat)
    (inn' : Inner) (h : inn.write_data data sl = some inn') :
    ∃ B : List Nat, inn.offset + data.length ≤ B.length ∧
      inn'.buffer = B.take inn.offset ++ data ++ B.drop (inn.offset + data.length) ∧
      inn'.offset = inn.offset + data.length ∧
      inn'.rec_count = (inn.rec_count + 1) % 2 ^ 32 ∧
      inn'.field = inn.field ∧ inn'.block_num = inn.block_num := by
  simp only [Inner.write_data] at h
  split at h <;> split at h
  all_goals
    first
      | exact Option.noConfusion h
      | (injection h with h'
         subst h'
         exact ⟨_, by assumption, rfl, rfl, rfl, rfl, rfl⟩)

/-- Extracting the 4-byte entry that `write_data` appended at cursor `n`. -/
theorem index_slice (B data : List Nat) (n : Nat)
    (hle : n + data.length ≤ B.length) (hlen : data.length = U32_SIZE) :
    ((B.take n ++ data ++ B.drop (n + data.length)).drop n).take U32_SIZE
      = data := by
  rw [← hlen]
  exact take_drop_middle _ _ _ _ (by simp; omega)

/-- C4: in `VariableColumn::write_record_field`,
(i) the index inner's `flush_required` is checked before the payload's:
whenever the index is at capacity the result is `Full` for the index,
whatever the payload's state; and
(ii) whenever the record is accepted, the payload's offset advances by the
record's payload length and the 4 bytes appended to the index column at its
previous cursor are exactly the little-endian `u32` encoding of the payload
`Inner`'s offset after the payload bytes were appended (the running
end-offset within the current block). -/
theorem variable_column_index_entry (payload index : Inner) (rec : Record)
    (cmp : List Nat → List Nat → Ordering) (sl : Nat) :
    (index.flush_required U32_SIZE sl = true →
      Column.write_record_field (.VariableColumn payload index) rec cmp sl
        = some (.VariableColumn payload index, .FullIndex)) ∧
    (∀ payload' index',
      Column.write_record_field (.VariableColumn payload index) rec cmp sl
          = some (.VariableColumn payload' index', .Written) →
      payload'.offset = payload.offset + (rec payload.field).length ∧
      index'.offset = index.offset + U32_SIZE ∧
      (index'.buffer.drop index.offset).take U32_SIZE = u32le payload'.offset) := by
  constructor
  · intro hfull
    simp only [Column.write_record_field, hfull, if_true]
  · intro payload' index' h
    simp only [Column.write_record_field] at h
    split at h
    · simp at h
    · split at h
      · simp at h
      · split at h
        · exact Option.noConfusion h
        · rename_i inn2 hw
          split at h
          · exact Option.noConfusion h
          · rename_i index2 hw2
            simp only [Option.some.injEq, Prod.mk.injEq,
              Column.VariableColumn.injEq] at h
            obtain ⟨⟨rfl, rfl⟩, -⟩ := h
            obtain ⟨B, hle, hbuf, hoff, -, -, -⟩ :=
              write_data_some_spec _ _ _ _ hw
            obtain ⟨B2, hle2, hbuf2, hoff2, -, -, -⟩ :=
              write_data_some_spec _ _ _ _ hw2
            refine ⟨by simpa using hoff, by simpa using hoff2, ?_⟩
            rw [hbuf2]
            exact index_slice _ _ _ hle2 rfl

/-- C4 witness: a 2-byte read name into fresh payload and index columns
(SIZE_LIMIT 8); the appended index entry is `u32le 2`, the payload's
end-offset — and a column whose index inner is at capacity
(offset 5, SIZE_LIMIT 8) reports `FullIndex` first even though its payload
is also at capacity. -/
theorem variable_column_index_entry_witness :
    ({ stats_collector := none, buffer := [0, 0, 0, 0, 0, 0, 0, 0], offset := 5
       field := .LName, rec_count := 1, block_num := 0 : Inner }.flush_required
        U32_SIZE 8 = true ∧
     Column.write_record_field
        (.VariableColumn
          { stats_collector := none, buffer := [0, 0, 0, 0, 0, 0, 0, 0], offset := 7
            field := .ReadName, rec_count := 1, block_num := 0 }
          { stats_collector := none, buffer := [0, 0, 0, 0, 0, 0, 0, 0], offset := 5
            field := .LName, rec_count := 1, block_num := 0 })
        (fun _ => [9, 9]) (fun _ _ => Ordering.lt) 8
      = some (.VariableColumn
          { stats_collector := none, buffer := [0, 0, 0, 0, 0, 0, 0, 0], offset := 7
            field := .ReadName, rec_count := 1, block_num := 0 }
          { stats_collector := none, buffer := [0, 0, 0, 0, 0, 0, 0, 0], offset := 5
            field := .LName, rec_count := 1, block_num := 0 }, .FullIndex)) ∧
    (Column.write_record_field
        (.VariableColumn (Inner.new .ReadName false) (Inner.new .LName false))
        (fun _ => [9, 9]) (fun _ _ => Ordering.lt) 8
      = some (.VariableColumn
          { stats_collector := none, buffer := [9, 9, 0, 0, 0, 0, 0, 0], offset := 2
            field := .ReadName, rec_count := 1, block_num := 0 }
          { stats_collector := none, buffer := [2, 0, 0, 0, 0, 0, 0, 0], offset := 4
            field := .LName, rec_count := 1, block_num := 0 }, .Written) ∧
      ({ stats_collector := none, buffer := [9, 9, 0, 0, 0, 0, 0, 0], offset := 2
         field := .ReadName, rec_count := 1, block_num := 0 : Inner }.offset
          = (Inner.new .ReadName false).offset
              + ((fun _ => [9, 9] : Record) (Inner.new .ReadName false).field).length ∧
       ({ stats_collector := none, buffer := [2, 0, 0, 0, 0, 0, 0, 0], offset := 4
          field := .LName, rec_count := 1, block_num := 0 : Inner }).offset
          = (Inner.new .LName false).offset + U32_SIZE ∧
       (({ stats_collector := none, buffer := [2, 0, 0, 0, 0, 0, 0, 0], offset := 4
           field := .LName, rec_count := 1, block_num := 0 : Inner }).buffer.drop
            (Inner.new .LName false).offset).take U32_SIZE
          = u32le ({ stats_collector := none, buffer := [9, 9, 0, 0, 0, 0, 0, 0]
                     offset := 2, field := .ReadName, rec_count := 1
                     block_num := 0 : Inner }).offset)) :=
  ⟨⟨by decide,
    (variable_column_index_entry
        { stats_collector := none, buffer := [0, 0, 0, 0, 0, 0, 0, 0], offset := 7
          field := .ReadName, rec_count := 1, block_num := 0 }
        { stats_collector := none, buffer := [0, 0, 0, 0, 0, 0, 0, 0], offset := 5
          field := .LName, rec_count := 1, block_num := 0 }
        (fun _ => [9, 9]) (fun _ _ => Ordering.lt) 8).1 (by decide)⟩,
   by decide,
   (variable_column_index_entry (Inner.new .ReadName false)
      (Inner.new .LName false) (fun _ => [9, 9]) (fun _ _ => Ordering.lt) 8).2
      _ _ (by decide)⟩

/-! C6 support -/

theorem bind_ne_spin {α β : Type} (x : Outcome α) (f : α → Outcome β)
    (hx : x ≠ .spin) (hf : ∀ a, f a ≠ .spin) : x.bind f ≠ .spin := by
  cases x with
  | ok a => exact hf a
  | ioError e => exact fun h => Outcome.noConfusion h
  | panicked => exact fun h => Outcome.noConfusion h
  | spin => exact absurd rfl hx

theorem generate_meta_ne_spin (s : FSink) (n b : Nat) :
    generate_meta s n b ≠ .spin := by
  unfold generate_meta
  split <;> exact fun h => Outcome.noConfusion h

theorem wdum_ne_spin (s : FSink) (m : FileMeta) (k : Nat) (t : CompressTask) :
    write_data_and_update_meta s m k t ≠ .spin := by
  simp only [write_data_and_update_meta]
  split
  · refine bind_ne_spin _ _ (generate_meta_ne_spin _ _ _) ?_
    intro a
    split <;> exact fun h => Outcome.noConfusion h
  · exact fun h => Outcome.noConfusion h

theorem sink_completed_task_ne_spin (s : FSink) (m : FileMeta)
    (t : CompressTask) : sink_completed_task s m t ≠ .spin := by
  unfold sink_completed_task
  split
  · exact wdum_ne_spin _ _ _ _
  · exact fun h => Outcome.noConfusion h

theorem flush_field_buffer_ne_spin (s : FSink) (m : FileMeta)
    (comp : Compressor) (inn : Inner) (cf : Codecs → List Nat → List Nat) :
    flush_field_buffer s m comp inn cf ≠ .spin := by
  unfold flush_field_buffer
  exact bind_ne_spin _ _ (sink_completed_task_ne_spin _ _ _)
    (fun a h => Outcome.noConfusion h)

theorem flushFull_ne_spin (col : Column) (st : WriteStatus) (s : FSink)
    (m : FileMeta) (comp : Compressor) (cf : Codecs → List Nat → List Nat) :
    Column.flushFull col st s m comp cf ≠ .spin := by
  cases col <;> cases st <;>
    exact bind_ne_spin _ _ (flush_field_buffer_ne_spin _ _ _ _ _)
      (fun a h => Outcome.noConfusion h)

/-- Any inner coming out of a successful `flush_field_buffer` has been
reset: its cursor is zero. -/
theorem flush_field_buffer_offset (s : FSink) (m : FileMeta) (comp : Compressor)
    (inn : Inner) (cf : Codecs → List Nat → List Nat)
    (r : FSink × FileMeta × Compressor × Inner)
    (h : flush_field_buffer s m comp inn cf = .ok r) : r.2.2.2.offset = 0 := by
  simp only [flush_field_buffer] at h
  cases hstep : sink_completed_task s m comp.get_compr_block.1 <;>
    rw [hstep] at h <;> simp only [Outcome.bind] at h
  · injection h with h'
    subst h'
    simp [Inner.reset_for_new_block]
  all_goals exact Outcome.noConfusion h

theorem flushFull_fixed_ok (inn : Inner) (st : WriteStatus) (s : FSink)
    (m : FileMeta) (comp : Compressor) (cf : Codecs → List Nat → List Nat)
    (r : FSink × FileMeta × Compressor × Column)
    (h : Column.flushFull (.FixedColumn inn) st s m comp cf = .ok r) :
    ∃ inn2, r.2.2.2 = .FixedColumn inn2 ∧ inn2.offset = 0 := by
  simp only [Column.flushFull] at h
  cases hf : flush_field_buffer s m comp inn cf <;>
    rw [hf] at h <;> simp only [Outcome.bind] at h
  · injection h with h'
    subst h'
    exact ⟨_, rfl, flush_field_buffer_offset _ _ _ _ _ _ hf⟩
  all_goals exact Outcome.noConfusion h

theorem flushFull_var_index_ok (p i : Inner) (s : FSink)
    (m : FileMeta) (comp : Compressor) (cf : Codecs → List Nat → List Nat)
    (r : FSink × FileMeta × Compressor × Column)
    (h : Column.flushFull (.VariableColumn p i) .FullIndex s m comp cf = .ok r) :
    ∃ i2, r.2.2.2 = .VariableColumn p i2 ∧ i2.offset = 0 := by
  simp only [Column.flushFull] at h
  cases hf : flush_field_buffer s m comp i cf <;>
    rw [hf] at h <;> simp only [Outcome.bind] at h
  · injection h with h'
    subst h'
    exact ⟨_, rfl, flush_field_buffer_offset _ _ _ _ _ _ hf⟩
  all_goals exact Outcome.noConfusion h

theorem flushFull_var_payload_ok (p i : Inner) (s : FSink)
    (m : FileMeta) (comp : Compressor) (cf : Codecs → List Nat → List Nat)
    (r : FSink × FileMeta × Compressor × Column)
    (h : Column.flushFull (.VariableColumn p i) .FullPayload s m comp cf = .ok r) :
    ∃ p2, r.2.2.2 = .VariableColumn p2 i ∧ p2.offset = 0 := by
  simp only [Column.flushFull] at h
  cases hf : flush_field_buffer s m comp p cf <;>
    rw [hf] at h <;> simp only [Outcome.bind] at h
  · injection h with h'
    subst h'
    exact ⟨_, rfl, flush_field_buffer_offset _ _ _ _ _ _ hf⟩
  all_goals exact Outcome.noConfusion h

/-- One unfolding of the retry loop when the column reports `Full`. -/
theorem writeLoop_step_full (fuel n : Nat) (hfuel : fuel = n + 1) (s : FSink)
    (m : FileMeta) (comp : Compressor) (col col' : Column) (rec : Record)
    (cmp : List Nat → List Nat → Ordering) (sl : Nat)
    (cf : Codecs → List Nat → List Nat) (st : WriteStatus)
    (hwrf : Column.write_record_field col rec cmp sl = some (col', st))
    (hst : st = .FullPayload ∨ st = .FullIndex) :
    writeLoop fuel s m comp col rec cmp sl cf
      = (col'.flushFull st s m comp cf).bind (fun r =>
          (writeLoop n r.1 r.2.1 r.2.2.1 r.2.2.2 rec cmp sl cf).bind
            (fun r2 => .ok (r2.1, r2.2.1, r2.2.2.1, r2.2.2.2.1, r2.2.2.2.2 + 1))) := by
  subst hfuel
  rcases hst with rfl | rfl <;> simp only [writeLoop, hwrf]

/-- Characterization of `write_record_field` when no inner is at capacity. -/
theorem wrf_no_full_result (col : Column) (rec : Record)
    (cmp : List Nat → List Nat → Ordering) (sl : Nat)
    (hfix : ∀ inn, col = .FixedColumn inn →
      inn.flush_required (rec inn.field).length sl = false)
    (hvar : ∀ p i, col = .VariableColumn p i →
      i.flush_required U32_SIZE sl = false ∧
      p.flush_required (rec p.field).length sl = false) :
    Column.write_record_field col rec cmp sl = none ∨
    ∃ col', Column.write_record_field col rec cmp sl = some (col', .Written) := by
  cases col with
  | FixedColumn inn =>
      have hf := hfix inn rfl
      rcases hw : Inner.write_data
          { inn with stats_collector :=
              inn.stats_collector.map fun st => StatsCollector.update cmp st (rec inn.field) }
          (rec inn.field) sl with _ | inn2
      · left; simp [Column.write_record_field, hf, hw]
      · right
        exact ⟨.FixedColumn inn2, by simp [Column.write_record_field, hf, hw]⟩
  | VariableColumn p i =>
      obtain ⟨hi, hp⟩ := hvar p i rfl
      rcases hw : Inner.write_data
          { p with stats_collector :=
              p.stats_collector.map fun st => StatsCollector.update cmp st (rec p.field) }
          (rec p.field) sl with _ | inn2
      · left; simp [Column.write_record_field, hi, hp, hw]
      · rcases hw2 : Inner.write_data i (u32le inn2.offset) sl with _ | i2
        · left; simp [Column.write_record_field, hi, hp, hw, hw2]
        · right
          exact ⟨.VariableColumn inn2 i2,
            by simp [Column.write_record_field, hi, hp, hw, hw2]⟩

/-- One loop round on a column with no inner at capacity either panics (the
out-of-bounds copy) or accepts the record with zero flushes. -/
theorem writeLoop_leaf (fuel : Nat) (hfuel : 0 < fuel) (s : FSink) (m : FileMeta)
    (comp : Compressor) (col : Column) (rec : Record)
    (cmp : List Nat → List Nat → Ordering) (sl : Nat)
    (cf : Codecs → List Nat → List Nat)
    (hfix : ∀ inn, col = .FixedColumn inn →
      inn.flush_required (rec inn.field).length sl = false)
    (hvar : ∀ p i, col = .VariableColumn p i →
      i.flush_required U32_SIZE sl = false ∧
      p.flush_required (rec p.field).length sl = false) :
    writeLoop fuel s m comp col rec cmp sl cf = .panicked ∨
    ∃ col', writeLoop fuel s m comp col rec cmp sl cf
        = .ok (s, m, comp, col', 0) := by
  match fuel, hfuel with
  | fuel + 1, _ =>
    rcases wrf_no_full_result col rec cmp sl hfix hvar with hn | ⟨col', hsome⟩
    · left; simp [writeLoop, hn]
    · right; exact ⟨col', by simp [writeLoop, hsome]⟩

/-- The property proved about one run of the per-record loop: it never runs
out of fuel at 3, and a successful run used at most 2 flush iterations. -/
def LoopOk : Outcome (FSink × FileMeta × Compressor × Column × Nat) → Prop
  | .spin => False
  | .ok out => out.2.2.2.2 ≤ 2
  | .ioError _ => True
  | .panicked => True

theorem loopOk_bind_leaf (fuel : Nat) (hfuel : 0 < fuel) (s : FSink) (m : FileMeta)
    (comp : Compressor) (col : Column) (rec : Record)
    (cmp : List Nat → List Nat → Ordering) (sl : Nat)
    (cf : Codecs → List Nat → List Nat) (k : Nat) (hk : k ≤ 2)
    (hfix : ∀ inn, col = .FixedColumn inn →
      inn.flush_required (rec inn.field).length sl = false)
    (hvar : ∀ p i, col = .VariableColumn p i →
      i.flush_required U32_SIZE sl = false ∧
      p.flush_required (rec p.field).length sl = false) :
    LoopOk ((writeLoop fuel s m comp col rec cmp sl cf).bind
      (fun r2 => .ok (r2.1, r2.2.1, r2.2.2.1, r2.2.2.2.1, r2.2.2.2.2 + k))) := by
  rcases writeLoop_leaf fuel hfuel s m comp col rec cmp sl cf hfix hvar
    with hp | ⟨col', hok⟩
  · rw [hp]; trivial
  · rw [hok]
    simp only [Outcome.bind, LoopOk]
    omega

theorem loopOk_bind_bind_leaf (fuel : Nat) (hfuel : 0 < fuel) (s : FSink)
    (m : FileMeta) (comp : Compressor) (col : Column) (rec : Record)
    (cmp : List Nat → List Nat → Ordering) (sl : Nat)
    (cf : Codecs → List Nat → List Nat) (k1 k2 : Nat) (hk : k1 + k2 ≤ 2)
    (hfix : ∀ inn, col = .FixedColumn inn →
      inn.flush_required (rec inn.field).length sl = false)
    (hvar : ∀ p i, col = .VariableColumn p i →
      i.flush_required U32_SIZE sl = false ∧
      p.flush_required (rec p.field).length sl = false) :
    LoopOk (((writeLoop fuel s m comp col rec cmp sl cf).bind
        (fun r2 => .ok (r2.1, r2.2.1, r2.2.2.1, r2.2.2.2.1, r2.2.2.2.2 + k1))).bind
      (fun r2 => .ok (r2.1, r2.2.1, r2.2.2.1, r2.2.2.2.1, r2.2.2.2.2 + k2))) := by
  rcases writeLoop_leaf fuel hfuel s m comp col rec cmp sl cf hfix hvar
    with hp | ⟨col', hok⟩
  · rw [hp]; trivial
  · rw [hok]
    simp only [Outcome.bind, LoopOk]
    omega

/-- C6 core: at fuel 3 the loop never exhausts its fuel, and a normal
completion used at most two flush iterations. -/
theorem loopOk_writeLoop3 (s : FSink) (m : FileMeta) (comp : Compressor)
    (col : Column) (rec : Record) (cmp : List Nat → List Nat → Ordering)
    (sl : Nat) (cf : Codecs → List Nat → List Nat) :
    LoopOk (writeLoop 3 s m comp col rec cmp sl cf) := by
  cases col with
  | FixedColumn inn =>
      by_cases hf : inn.flush_required (rec inn.field).length sl
      · have hwrf : Column.write_record_field (.FixedColumn inn) rec cmp sl
            = some (.FixedColumn inn, .FullPayload) := by
          simp [Column.write_record_field, hf]
        rw [writeLoop_step_full 3 2 rfl s m comp (.FixedColumn inn)
          (.FixedColumn inn) rec cmp sl cf .FullPayload hwrf (Or.inl rfl)]
        cases hfl : Column.flushFull (.FixedColumn inn) .FullPayload s m comp cf with
        | ok r =>
            simp only [Outcome.bind]
            obtain ⟨inn2, hcol2, hoff2⟩ := flushFull_fixed_ok _ _ _ _ _ _ _ hfl
            rw [hcol2]
            exact loopOk_bind_leaf 2 (by omega) r.1 r.2.1 r.2.2.1
              (.FixedColumn inn2) rec cmp sl cf 1 (by omega)
              (fun inn3 hinn => by
                injection hinn with h'
                subst h'
                exact flush_required_of_offset_zero _ _ _ hoff2)
              (fun p' i' hpi => by cases hpi)
        | ioError e => trivial
        | panicked => trivial
        | spin => exact absurd hfl (flushFull_ne_spin _ _ _ _ _ _)
      · have hf' : inn.flush_required (rec inn.field).length sl = false := by
          simpa using hf
        rcases writeLoop_leaf 3 (by omega) s m comp (.FixedColumn inn) rec cmp sl cf
            (fun inn3 hinn => by injection hinn with h'; subst h'; exact hf')
            (fun p' i' hpi => by cases hpi)
          with hp | ⟨col', hok⟩
        · rw [hp]; trivial
        · rw [hok]; simp [LoopOk]
  | VariableColumn p i =>
      by_cases hi : i.flush_required U32_SIZE sl
      · have hwrf : Column.write_record_field (.VariableColumn p i) rec cmp sl
            = some (.VariableColumn p i, .FullIndex) := by
          simp [Column.write_record_field, hi]
        rw [writeLoop_step_full 3 2 rfl s m comp (.VariableColumn p i)
          (.VariableColumn p i) rec cmp sl cf .FullIndex hwrf (Or.inr rfl)]
        cases hfl : Column.flushFull (.VariableColumn p i) .FullIndex s m comp cf with
        | ok r =>
            simp only [Outcome.bind]
            obtain ⟨i2, hcol2, hoff2⟩ := flushFull_var_index_ok _ _ _ _ _ _ _ hfl
            rw [hcol2]
            have hi2 : i2.flush_required U32_SIZE sl = false :=
              flush_required_of_offset_zero _ _ _ hoff2
            by_cases hp : p.flush_required (rec p.field).length sl
            · have hwrf2 : Column.write_record_field (.VariableColumn p i2) rec cmp sl
                  = some (.VariableColumn p i2, .FullPayload) := by
                simp [Column.write_record_field, hi2, hp]
              rw [writeLoop_step_full 2 1 rfl r.1 r.2.1 r.2.2.1
                (.VariableColumn p i2) (.VariableColumn p i2) rec cmp sl cf
                .FullPayload hwrf2 (Or.inl rfl)]
              cases hfl2 : Column.flushFull (.VariableColumn p i2) .FullPayload
                  r.1 r.2.1 r.2.2.1 cf with
              | ok r2 =>
                  simp only [Outcome.bind]
                  obtain ⟨p2, hcol3, hoff3⟩ :=
                    flushFull_var_payload_ok _ _ _ _ _ _ _ hfl2
                  rw [hcol3]
                  exact loopOk_bind_bind_leaf 1 (by omega) r2.1 r2.2.1 r2.2.2.1
                    (.VariableColumn p2 i2) rec cmp sl cf 1 1 (by omega)
                    (fun inn3 hinn => by cases hinn)
                    (fun p' i' hpi => by
                      injection hpi with h1 h2
                      subst h1; subst h2
                      exact ⟨hi2, flush_required_of_offset_zero _ _ _ hoff3⟩)
              | ioError e => trivial
              | panicked => trivial
              | spin => exact absurd hfl2 (flushFull_ne_spin _ _ _ _ _ _)
            · have hp' : p.flush_required (rec p.field).length sl = false := by
                simpa using hp
              exact loopOk_bind_leaf 2 (by omega) r.1 r.2.1 r.2.2.1
                (.VariableColumn p i2) rec cmp sl cf 1 (by omega)
                (fun inn3 hinn => by cases hinn)
                (fun p' i' hpi => by
                  injection hpi with h1 h2
                  subst h1; subst h2
                  exact ⟨hi2, hp'⟩)
        | ioError e => trivial
        | panicked => trivial
        | spin => exact absurd hfl (flushFull_ne_spin _ _ _ _ _ _)
      · have hi' : i.flush_required U32_SIZE sl = false := by simpa using hi
        by_cases hp : p.flush_required (rec p.field).length sl
        · have hwrf : Column.write_record_field (.VariableColumn p i) rec cmp sl
              = some (.VariableColumn p i, .FullPayload) := by
            simp [Column.write_record_field, hi', hp]
          rw [writeLoop_step_full 3 2 rfl s m comp (.VariableColumn p i)
            (.VariableColumn p i) rec cmp sl cf .FullPayload hwrf (Or.inl rfl)]
          cases hfl : Column.flushFull (.VariableColumn p i) .FullPayload s m comp cf with
          | ok r =>
              simp only [Outcome.bind]
              obtain ⟨p2, hcol2, hoff2⟩ := flushFull_var_payload_ok _ _ _ _ _ _ _ hfl
              rw [hcol2]
              exact loopOk_bind_leaf 2 (by omega) r.1 r.2.1 r.2.2.1
                (.VariableColumn p2 i) rec cmp sl cf 1 (by omega)
                (fun inn3 hinn => by cases hinn)
                (fun p' i' hpi => by
                  injection hpi with h1 h2
                  subst h1; subst h2
                  exact ⟨hi', flush_required_of_offset_zero _ _ _ hoff2⟩)
          | ioError e => trivial
          | panicked => trivial
          | spin => exact absurd hfl (flushFull_ne_spin _ _ _ _ _ _)
        · have hp' : p.flush_required (rec p.field).length sl = false := by
            simpa using hp
          rcases writeLoop_leaf 3 (by omega) s m comp (.VariableColumn p i) rec cmp sl cf
              (fun inn3 hinn => by cases hinn)
              (fun p' i' hpi => by
                injection hpi with h1 h2
                subst h1; subst h2
                exact ⟨hi', hp'⟩)
            with hp2 | ⟨col', hok⟩
          · rw [hp2]; trivial
          · rw [hok]; simp [LoopOk]

/-- C6: the per-record repeat loop of `Writer::push_record` terminates for
every record and every column: with fuel 3 the modelled loop never exhausts
its fuel (`write_record_field` returns `Full` at most twice for one record
— once for the index inner, once for the payload inner), and whenever the
loop completes normally it performed at most two flush iterations before
the record was written. -/
theorem push_record_loop_terminates (s : FSink) (m : FileMeta)
    (comp : Compressor) (col : Column) (rec : Record)
    (cmp : List Nat → List Nat → Ordering) (sl : Nat)
    (cf : Codecs → List Nat → List Nat) :
    writeLoop 3 s m comp col rec cmp sl cf ≠ .spin ∧
    (∀ out, writeLoop 3 s m comp col rec cmp sl cf = .ok out →
      out.2.2.2.2 ≤ 2) := by
  have h := loopOk_writeLoop3 s m comp col rec cmp sl cf
  constructor
  · intro hcon
    rw [hcon] at h
    exact h
  · intro out hout
    rw [hout] at h
    exact h

/-- Sink for the C6 witness run. -/
def wSink : FSink := { file := { data := [], pos := 0 }, trace := [], failsAt := none, opCount := 0 }

/-- Catalog for the C6 witness run. -/
def wMeta : FileMeta := FileMeta.new .Gzip []

/-- Column after the C6 witness run accepted its 4-byte record. -/
def wCol2 : Column :=
  .FixedColumn { stats_collector := none, buffer := [1, 2, 3, 4, 0, 0, 0, 0]
                 offset := 4, field := .Pos, rec_count := 1, block_num := 0 }

/-- C6 witness: a fresh fixed `Pos` column accepts a 4-byte record with zero
flush iterations; the loop does not spin and the flush count is within the
bound. -/
theorem push_record_loop_terminates_witness :
    writeLoop 3 wSink wMeta Compressor.new (.FixedColumn (Inner.new .Pos false))
        (fun _ => [1, 2, 3, 4]) (fun _ _ => Ordering.lt) 8 (fun _ d => d) ≠ .spin ∧
    ((wSink, wMeta, Compressor.new, wCol2, 0) :
        FSink × FileMeta × Compressor × Column × Nat).2.2.2.2 ≤ 2 :=
  ⟨(push_record_loop_terminates wSink wMeta Compressor.new
      (.FixedColumn (Inner.new .Pos false)) (fun _ => [1, 2, 3, 4])
      (fun _ _ => Ordering.lt) 8 (fun _ d => d)).1,
   (push_record_loop_terminates wSink wMeta Compressor.new
      (.FixedColumn (Inner.new .Pos false)) (fun _ => [1, 2, 3, 4])
      (fun _ _ => Ordering.lt) 8 (fun _ d => d)).2
      (wSink, wMeta, Compressor.new, wCol2, 0) rfl⟩

/-! C10 support -/

/-- After a successful `finish`, the writer's column vector has been
drained. -/
theorem finish_tail_columns (s2 : FSink) (m2 : FileMeta)
    (sm : FileMeta → List Nat) (w' : WriterState) (n : Nat)
    (h : finish_tail s2 m2 sm = .ok (w', n)) : w'.columns = [] := by
  simp only [finish_tail] at h
  split at h
  · exact Outcome.noConfusion h
  · split at h
    · exact Outcome.noConfusion h
    · split at h
      · exact Outcome.noConfusion h
      · split at h
        · exact Outcome.noConfusion h
        · split at h
          · exact Outcome.noConfusion h
          · injection h with h'
            have : w' = { file_meta := m2, columns := []
                          compressor := Compressor.new
                          inner := _ } := congrArg Prod.fst h' |>.symm
            rw [this]

theorem finish_ok_columns (w : WriterState) (cf : Codecs → List Nat → List Nat)
    (sm : FileMeta → List Nat) (w' : WriterState) (n : Nat)
    (h : Writer.finish w cf sm = .ok (w', n)) : w'.columns = [] := by
  simp only [Writer.finish] at h
  cases hfl : flushColumnsAtFinish cf w.columns w.inner w.file_meta w.compressor <;>
    rw [hfl] at h <;> simp only [Outcome.bind] at h
  case ok r =>
    cases hdr : drainTasks (r.2.2.finish).1 r.1 r.2.1 <;>
      rw [hdr] at h <;> simp only [Outcome.bind] at h
    case ok r2 => exact finish_tail_columns _ _ _ _ _ h
    all_goals exact Outcome.noConfusion h
  all_goals exact Outcome.noConfusion h

/-- `push_record` on a writer whose columns are drained is the identity. -/
theorem push_record_empty_columns (w : WriterState) (rec : Record)
    (cmp : List Nat → List Nat → Ordering) (sl : Nat)
    (cf : Codecs → List Nat → List Nat) (h : w.columns = []) :
    Writer.push_record w rec cmp sl cf = .ok w := by
  simp only [Writer.push_record, h, pushColumns, Outcome.bind]
  rw [← h]

/-- C10: calling `push_record` after `finish` has returned is a silent
no-op: `finish` drains the column vector, so the returned writer state has
no columns, and every subsequent `push_record` (any record, comparator,
size limit or codec) returns the state unchanged — nothing is written to
the sink, nothing is submitted to the compressor, and no panic occurs. -/
theorem push_after_finish_noop (w : WriterState)
    (cf : Codecs → List Nat → List Nat) (sm : FileMeta → List Nat)
    (w' : WriterState) (n : Nat) (h : Writer.finish w cf sm = .ok (w', n)) :
    w'.columns = [] ∧
    (∀ rec cmp sl cf2, Writer.push_record w' rec cmp sl cf2 = .ok w') := by
  have hcols := finish_ok_columns w cf sm w' n h
  exact ⟨hcols, fun rec cmp sl cf2 =>
    push_record_empty_columns w' rec cmp sl cf2 hcols⟩

/-- The starting writer for the C10 witness: fresh state after the header
reservation seek, no columns. -/
def w10 : WriterState :=
  { file_meta := FileMeta.new .Gzip [], columns := []
    compressor := Compressor.new
    inner := { file := { data := [], pos := 22 }, trace := []
               failsAt := none, opCount := 0 } }

/-- The writer state `finish` leaves behind in the C10 witness run. -/
def w10' : WriterState :=
  { file_meta := FileMeta.new .Gzip [], columns := []
    compressor := Compressor.new
    inner := { file := { data := fileInfoBytes 1 0 22 (calc_crc_for_meta_bytes []), pos := 22 }
               trace := [(22, []), (0, fileInfoBytes 1 0 22 (calc_crc_for_meta_bytes []))]
               failsAt := none, opCount := 5 } }

/-- C10 witness: a concrete `finish` run (empty catalog serialization)
returns normally; the resulting writer has no columns and a subsequent
`push_record` of a zero-filled record leaves it unchanged. -/
theorem push_after_finish_noop_witness :
    Writer.finish w10 (fun _ d => d) (fun _ => []) = .ok (w10', 22) ∧
    (w10'.columns = [] ∧
      (∀ rec cmp sl cf2, Writer.push_record w10' rec cmp sl cf2 = .ok w10')) :=
  ⟨rfl, push_after_finish_noop w10 (fun _ d => d) (fun _ => []) w10' 22 rfl⟩

/-! C1 support -/

theorem sink_completed_task_empty (s : FSink) (m : FileMeta) (task : CompressTask)
    (h : task.ordering_key = .Empty) : sink_completed_task s m task = .ok (s, m) := by
  simp [sink_completed_task, h]

theorem get_compr_block_mem (c : Compressor) :
    (∀ t ∈ (c.get_compr_block).2.queue, t ∈ c.queue) ∧
    ((c.get_compr_block).1 ∈ c.queue ∨
      (c.get_compr_block).1.ordering_key = .Empty) := by
  obtain ⟨q⟩ := c
  cases q with
  | nil => simp [Compressor.get_compr_block]
  | cons t rest =>
      refine ⟨?_, Or.inl (by simp [Compressor.get_compr_block])⟩
      intro x hx
      simp only [Compressor.get_compr_block] at hx
      simp [hx]

theorem compress_block_empty_mem (c : Compressor) (key : OrderingKey)
    (info : BlockInfo) (data : List Nat) (cfn : List Nat → List Nat)
    (h : info.uncompr_size = 0) (t : CompressTask)
    (ht : t ∈ (c.compress_block key info data cfn).queue) :
    t ∈ c.queue ∨ t.ordering_key = .Empty := by
  simp only [Compressor.compress_block, h, if_pos] at ht
  rcases List.mem_append.mp ht with hl | hr
  · exact Or.inl hl
  · simp only [List.mem_singleton] at hr
    subst hr
    exact Or.inr rfl

/-- Flushing a column whose `Inner` has `offset == 0` writes nothing, leaves
the catalog untouched, and submits only an `Empty`-keyed block (assuming the
pipeline holds only `Empty`-keyed tasks, as on an empty stream). -/
theorem flush_field_buffer_offset_zero (s : FSink) (m : FileMeta)
    (comp : Compressor) (inn : Inner) (cf : Codecs → List Nat → List Nat)
    (h0 : inn.offset = 0)
    (hq : ∀ t ∈ comp.queue, t.ordering_key = .Empty) :
    ∃ r, flush_field_buffer s m comp inn cf = .ok r ∧ r.1 = s ∧ r.2.1 = m ∧
      (∀ t ∈ r.2.2.1.queue, t.ordering_key = .Empty) ∧ r.2.2.2.offset = 0 := by
  have hpop := get_compr_block_mem comp
  have hsink : sink_completed_task s m (comp.get_compr_block).1 = .ok (s, m) := by
    rcases hpop.2 with hmem | hemp
    · exact sink_completed_task_empty _ _ _ (hq _ hmem)
    · exact sink_completed_task_empty _ _ _ hemp
  simp only [flush_field_buffer, hsink, Outcome.bind]
  refine ⟨_, rfl, rfl, rfl, ?_, ?_⟩
  · intro t ht
    rcases compress_block_empty_mem _ _ _ _ _ (by simpa [Inner.generate_block_info] using h0)
        t ht with hmem | hemp
    · exact hq _ (hpop.1 _ hmem)
    · exact hemp
  · simp [Inner.reset_for_new_block]

/-- Both inners of a column are at offset zero. -/
def colZero : Column → Prop
  | .FixedColumn inn => inn.offset = 0
  | .VariableColumn p i => p.offset = 0 ∧ i.offset = 0

theorem mkColumn_colZero (hasStats : Fields → Bool) (f : Fields) :
    colZero (mkColumn hasStats f) := by
  unfold mkColumn
  cases field_type f <;> simp [colZero, Inner.new]

/-- Draining columns whose inners are all at offset zero in `finish` leaves
the sink and catalog untouched and the pipeline holding only `Empty`-keyed
tasks. -/
theorem flushColumnsAtFinish_empty (cf : Codecs → List Nat → List Nat) :
    ∀ (cols : List Column) (s : FSink) (m : FileMeta) (comp : Compressor),
      (∀ c ∈ cols, colZero c) →
      (∀ t ∈ comp.queue, t.ordering_key = .Empty) →
      ∃ comp', flushColumnsAtFinish cf cols s m comp = .ok (s, m, comp') ∧
        (∀ t ∈ comp'.queue, t.ordering_key = .Empty) := by
  intro cols
  induction cols with
  | nil => exact fun s m comp _ hq => ⟨comp, rfl, hq⟩
  | cons c rest ih =>
      intro s m comp hz hq
      cases c with
      | FixedColumn inn =>
          obtain ⟨r, hr, hs, hm, hq', -⟩ :=
            flush_field_buffer_offset_zero s m comp inn cf
              (hz (Column.FixedColumn inn) (by simp)) hq
          obtain ⟨comp', hrec, hq2⟩ :=
            ih r.1 r.2.1 r.2.2.1 (fun c hc => hz c (by simp [hc])) hq'
          refine ⟨comp', ?_, hq2⟩
          simp only [flushColumnsAtFinish, hr, Outcome.bind]
          rw [hrec, hs, hm]
      | VariableColumn p i =>
          have hzc : colZero (Column.VariableColumn p i) :=
            hz (Column.VariableColumn p i) (by simp)
          obtain ⟨hp0, hi0⟩ := hzc
          obtain ⟨r, hr, hs, hm, hq', -⟩ :=
            flush_field_buffer_offset_zero s m comp p cf hp0 hq
          obtain ⟨r2, hr2, hs2, hm2, hq2, -⟩ :=
            flush_field_buffer_offset_zero r.1 r.2.1 r.2.2.1 i cf hi0 hq'
          obtain ⟨comp', hrec, hq3⟩ :=
            ih r2.1 r2.2.1 r2.2.2.1 (fun c hc => hz c (by simp [hc])) hq2
          refine ⟨comp', ?_, hq3⟩
          simp only [flushColumnsAtFinish, hr, Outcome.bind, hr2]
          rw [hrec, hs2, hs, hm2, hm]

theorem drainTasks_all_empty :
    ∀ (ts : List CompressTask) (s : FSink) (m : FileMeta),
      (∀ t ∈ ts, t.ordering_key = .Empty) →
      drainTasks ts s m = .ok (s, m) := by
  intro ts
  induction ts with
  | nil => exact fun s m _ => rfl
  | cons t rest ih =>
      intro s m h
      have ht : t.ordering_key = .Empty := h t (by simp)
      simp only [drainTasks, ht]
      exact ih s m (fun x hx => h x (by simp [hx]))

theorem length_fileInfoBytes (a b c d : Nat) :
    (fileInfoBytes a b c d).length = FILE_INFO_SIZE := by
  simp [fileInfoBytes, GBAM_MAGIC, u64le, u32le, FILE_INFO_SIZE]

theorem drop_replicate_append (n : Nat) (l : List Nat) :
    (List.replicate n (0 : Nat) ++ l).drop n = l := by
  simpa using List.drop_left (List.replicate n (0 : Nat)) l

/-- The sink state `finish` produces on the empty stream, for a catalog
serialized to `json`: the reserved header patched in front of the catalog,
nothing else. -/
def emptyStreamSink (json : List Nat) : FSink :=
  { file := { data := fileInfoBytes 1 0 FILE_INFO_SIZE
                (calc_crc_for_meta_bytes json) ++ json
              pos := FILE_INFO_SIZE }
    trace := [(FILE_INFO_SIZE, json),
      (0, fileInfoBytes 1 0 FILE_INFO_SIZE (calc_crc_for_meta_bytes json))]
    failsAt := none
    opCount := 6 }

/-- A fresh, never-failing sink (cursor at 0, nothing written). -/
def freshSink : FSink :=
  { file := { data := [], pos := 0 }, trace := [], failsAt := none, opCount := 0 }

/-- C1: a column whose `Inner` has `offset == 0` at flush time contributes
no block (part one); and on the empty stream — construct the writer, call
`finish` immediately — the output is exactly the reserved header followed
by the catalog JSON: every field's block list is empty, no block bytes
precede the catalog (which starts at `FILE_INFO_SIZE`), and
`total_bytes_written = FILE_INFO_SIZE + len(catalog_json)` (part two). -/
theorem empty_stream_emits_no_blocks (s : FSink) (m : FileMeta)
    (comp : Compressor) (inn : Inner) (cf : Codecs → List Nat → List Nat)
    (sm : FileMeta → List Nat) (fields : List Fields)
    (hasStats : Fields → Bool) (codec : Codecs) (refs : List (String × Int))
    (h0 : inn.offset = 0)
    (hq : ∀ t ∈ comp.queue, t.ordering_key = .Empty) :
    (∃ r, flush_field_buffer s m comp inn cf = .ok r ∧ r.1 = s ∧ r.2.1 = m ∧
      (∀ t ∈ r.2.2.1.queue, t.ordering_key = .Empty)) ∧
    (∀ w, Writer.new fields hasStats codec refs freshSink = .ok w →
      ∃ w', Writer.finish w cf sm
          = .ok (w', FILE_INFO_SIZE + (sm (FileMeta.new codec refs)).length) ∧
        (∀ f, w'.file_meta.get_blocks f = []) ∧
        w'.inner.file.data
          = fileInfoBytes 1 0 FILE_INFO_SIZE
              (calc_crc_for_meta_bytes (sm (FileMeta.new codec refs)))
            ++ sm (FileMeta.new codec refs)) := by
  constructor
  · obtain ⟨r, hr, hs, hm, hall, -⟩ :=
      flush_field_buffer_offset_zero s m comp inn cf h0 hq
    exact ⟨r, hr, hs, hm, hall⟩
  · intro w hw
    have hw' : w = { file_meta := FileMeta.new codec refs
                     columns := (fields.filter (fun f => is_data_field f)).map
                       (mkColumn hasStats)
                     compressor := Compressor.new
                     inner := { file := { data := [], pos := FILE_INFO_SIZE }
                                trace := [], failsAt := none, opCount := 1 } } := by
      simp only [Writer.new, FSink.seek_start, freshSink,
        show ((none : Option Nat) = some 0) = False by simp, if_false] at hw
      injection hw with h'
      exact h'.symm
    subst hw'
    obtain ⟨comp', hfl, hall⟩ :=
      flushColumnsAtFinish_empty cf
        ((fields.filter (fun f => is_data_field f)).map (mkColumn hasStats))
        { file := { data := [], pos := FILE_INFO_SIZE }
          trace := [], failsAt := none, opCount := 1 }
        (FileMeta.new codec refs) Compressor.new
        (by
          intro c hc
          obtain ⟨f, -, rfl⟩ := List.mem_map.mp hc
          exact mkColumn_colZero hasStats f)
        (by intro t ht; simp [Compressor.new] at ht)
    have hdr : drainTasks (comp'.finish).1
        { file := { data := [], pos := FILE_INFO_SIZE }
          trace := [], failsAt := none, opCount := 1 }
        (FileMeta.new codec refs) = .ok
          ({ file := { data := [], pos := FILE_INFO_SIZE }
             trace := [], failsAt := none, opCount := 1 },
           FileMeta.new codec refs) :=
      drainTasks_all_empty _ _ _ (by simpa [Compressor.finish] using hall)
    have hfin : Writer.finish
        { file_meta := FileMeta.new codec refs
          columns := (fields.filter (fun f => is_data_field f)).map
            (mkColumn hasStats)
          compressor := Compressor.new
          inner := { file := { data := [], pos := FILE_INFO_SIZE }
                     trace := [], failsAt := none, opCount := 1 } } cf sm
        = .ok
          ({ file_meta := FileMeta.new codec refs, columns := []
             compressor := Compressor.new
             inner := emptyStreamSink (sm (FileMeta.new codec refs)) },
           FILE_INFO_SIZE + (sm (FileMeta.new codec refs)).length) := by
      simp only [Writer.finish, Outcome.bind, hfl, hdr, finish_tail]
      simp [FSink.seek_current, FSink.write_all, FSink.seek_start,
        MockFile.writeBytes, FILE_INFO_SIZE, emptyStreamSink,
        List.take_replicate, drop_replicate_append,
        length_fileInfoBytes, List.drop_eq_nil_of_le]
    exact ⟨_, hfin, fun f => rfl, by simp [emptyStreamSink]⟩

/-- The writer built over `[Pos, ReadName]` for the C1 witness. -/
def c1w : WriterState :=
  { file_meta := FileMeta.new .Gzip []
    columns := [mkColumn (fun _ => false) .Pos, mkColumn (fun _ => false) .ReadName]
    compressor := Compressor.new
    inner := { file := { data := [], pos := FILE_INFO_SIZE }
               trace := [], failsAt := none, opCount := 1 } }

/-- C1 witness: a fresh `Pos` column (offset 0) and an empty pipeline
satisfy the hypotheses; flushing emits no block, and the empty-stream run
over fields `[Pos, ReadName]` with an empty-JSON serializer produces
exactly header-plus-catalog and total `FILE_INFO_SIZE`. -/
theorem empty_stream_emits_no_blocks_witness :
    ((Inner.new .Pos false).offset = 0 ∧
      (∀ t ∈ Compressor.new.queue, t.ordering_key = .Empty)) ∧
    (∃ r, flush_field_buffer freshSink (FileMeta.new .Gzip []) Compressor.new
        (Inner.new .Pos false) (fun _ d => d) = .ok r ∧ r.1 = freshSink ∧
      r.2.1 = FileMeta.new .Gzip [] ∧
      (∀ t ∈ r.2.2.1.queue, t.ordering_key = .Empty)) ∧
    (∃ w', Writer.finish c1w (fun _ d => d) (fun _ => [])
        = .ok (w', FILE_INFO_SIZE + ([] : List Nat).length) ∧
      (∀ f, w'.file_meta.get_blocks f = []) ∧
      w'.inner.file.data
        = fileInfoBytes 1 0 FILE_INFO_SIZE (calc_crc_for_meta_bytes []) ++ []) :=
  ⟨⟨rfl, by simp [Compressor.new]⟩,
   (empty_stream_emits_no_blocks freshSink (FileMeta.new .Gzip [])
      Compressor.new (Inner.new .Pos false) (fun _ d => d) (fun _ => [])
      [.Pos, .ReadName] (fun _ => false) .Gzip [] rfl
      (by simp [Compressor.new])).1,
   (empty_stream_emits_no_blocks freshSink (FileMeta.new .Gzip [])
      Compressor.new (Inner.new .Pos false) (fun _ d => d) (fun _ => [])
      [.Pos, .ReadName] (fun _ => false) .Gzip [] rfl
      (by simp [Compressor.new])).2 c1w rfl⟩

/-! C8: error propagation -/

/-- A writer about to drain one real-keyed task from the pipeline, over a
sink whose next I/O operation fails. -/
def c8w : WriterState :=
  { file_meta := FileMeta.new .Gzip [], columns := []
    compressor := ⟨[{ ordering_key := .Key 0, buf := [1]
                      block_info := BlockInfo.default }]⟩
    inner := { file := { data := List.replicate 22 0, pos := 22 }
               trace := [], failsAt := some 0, opCount := 0 } }

/-- C8 counterexample: when the sink's seek fails while `finish` drains the
pipeline, the caller does not receive an error result — the drain path goes
through `write_data_and_update_meta`, whose seek/write use `unwrap`, so the
failure is a panic. -/
theorem finish_drain_panics_on_io_error :
    Writer.finish c8w (fun _ d => d) (fun _ => []) = .panicked := rfl

/-- C8 (amended): only the I/O operations that `finish` performs after the
drain with `?` — the catalog-position seek (op 0), the catalog write
(op 1), the total-position seek (op 2) and the header write (op 4) —
propagate a sink failure to the caller as an error; the seek back to the
start (op 3) uses `unwrap` and panics instead, as does any failure during
the flush/drain phase (see the counterexample). -/
theorem finish_tail_error_propagation (w : WriterState)
    (cf : Codecs → List Nat → List Nat) (sm : FileMeta → List Nat) (k : Nat)
    (hcols : w.columns = []) (hqueue : w.compressor.queue = [])
    (hfail : w.inner.failsAt = some (w.inner.opCount + k)) :
    ((k = 0 ∨ k = 1 ∨ k = 2 ∨ k = 4) →
      Writer.finish w cf sm = .ioError (w.inner.opCount + k)) ∧
    (k = 3 → Writer.finish w cf sm = .panicked) := by
  obtain ⟨meta, cols, comp, sink⟩ := w
  obtain ⟨q⟩ := comp
  simp only at hcols hqueue hfail
  subst hcols
  subst hqueue
  obtain ⟨file, trace, failsAt, c⟩ := sink
  simp only at hfail
  subst hfail
  constructor
  · rintro (rfl | rfl | rfl | rfl)
    · simp [Writer.finish, finish_tail, flushColumnsAtFinish, Outcome.bind, Compressor.finish,
        drainTasks, FSink.seek_current, FSink.write_all, FSink.seek_start]
    · simp [Writer.finish, finish_tail, flushColumnsAtFinish, Outcome.bind, Compressor.finish,
        drainTasks, FSink.seek_current, FSink.write_all, FSink.seek_start,
        show c + 1 ≠ c from by omega]
    · simp [Writer.finish, finish_tail, flushColumnsAtFinish, Outcome.bind, Compressor.finish,
        drainTasks, FSink.seek_current, FSink.write_all, FSink.seek_start,
        show c + 2 ≠ c from by omega, show c + 2 ≠ c + 1 from by omega]
    · simp [Writer.finish, finish_tail, flushColumnsAtFinish, Outcome.bind, Compressor.finish,
        drainTasks, FSink.seek_current, FSink.write_all, FSink.seek_start,
        show c + 4 ≠ c from by omega, show c + 4 ≠ c + 1 from by omega,
        show c + 4 ≠ c + 2 from by omega, show c + 4 ≠ c + 3 from by omega]
  · rintro rfl
    simp [Writer.finish, finish_tail, flushColumnsAtFinish, Outcome.bind, Compressor.finish,
      drainTasks, FSink.seek_current, FSink.write_all, FSink.seek_start,
      show c + 3 ≠ c from by omega, show c + 3 ≠ c + 1 from by omega,
      show c + 3 ≠ c + 2 from by omega]

/-- A drained writer over a sink that fails on its very next operation. -/
def c8w2 : WriterState :=
  { file_meta := FileMeta.new .Gzip [], columns := [], compressor := ⟨[]⟩
    inner := { file := { data := List.replicate 22 0, pos := 22 }
               trace := [], failsAt := some 0, opCount := 0 } }

/-- C8 witness: on a drained writer whose sink fails at the first tail
operation (the catalog-position seek), `finish` returns the error to the
caller. -/
theorem finish_tail_error_propagation_witness :
    (c8w2.columns = [] ∧ c8w2.compressor.queue = [] ∧
      c8w2.inner.failsAt = some (c8w2.inner.opCount + 0) ∧
      ((0 : Nat) = 0 ∨ (0 : Nat) = 1 ∨ (0 : Nat) = 2 ∨ (0 : Nat) = 4)) ∧
    Writer.finish c8w2 (fun _ d => d) (fun _ => [])
      = .ioError (c8w2.inner.opCount + 0) :=
  ⟨⟨rfl, rfl, rfl, Or.inl rfl⟩,
   (finish_tail_error_propagation c8w2 (fun _ d => d) (fun _ => []) 0
      rfl rfl rfl).1 (Or.inl rfl)⟩

/-! C9 support -/

/-- A healthy sink: no fault injected, cursor at end of file, header region
reserved. -/
def sinkOk (s : FSink) : Prop :=
  s.failsAt = none ∧ s.file.pos = s.file.data.length ∧
    FILE_INFO_SIZE ≤ s.file.pos

/-- Every real-keyed task in flight fits the `u32` compressed-size field. -/
def queueOk (c : Compressor) : Prop :=
  ∀ t ∈ c.queue, ∀ k, t.ordering_key = OrderingKey.Key k →
    t.buf.length < 2 ^ 32

/-- The codec never produces a compressed block outside `u32` range. -/
def cfOk (cf : Codecs → List Nat → List Nat) : Prop :=
  ∀ c d, (cf c d).length < 2 ^ 32

/-- `s'` extends `s`: same fault setting, data and trace only appended. -/
def SinkAppends (s s' : FSink) : Prop :=
  ∃ added events, s'.file.data = s.file.data ++ added ∧
    s'.trace = s.trace ++ events

theorem SinkAppends.refl (s : FSink) : SinkAppends s s :=
  ⟨[], [], by simp, by simp⟩

theorem SinkAppends.trans {s t u : FSink} (h1 : SinkAppends s t)
    (h2 : SinkAppends t u) : SinkAppends s u := by
  obtain ⟨a1, e1, hd1, ht1⟩ := h1
  obtain ⟨a2, e2, hd2, ht2⟩ := h2
  exact ⟨a1 ++ a2, e1 ++ e2, by simp [hd2, hd1], by simp [ht2, ht1]⟩

theorem writeBytes_at_end (f : MockFile) (b : List Nat)
    (h : f.pos = f.data.length) :
    f.writeBytes b = { data := f.data ++ b, pos := f.pos + b.length } := by
  simp [MockFile.writeBytes, h, List.take_length, List.drop_eq_nil_of_le]

theorem writeBytes_at_zero (f : MockFile) (b : List Nat) (hpos : f.pos = 0) :
    f.writeBytes b = { data := b ++ f.data.drop b.length, pos := b.length } := by
  simp [MockFile.writeBytes, hpos]

theorem seek_current_ok (s : FSink) (h : s.failsAt = none) :
    s.seek_current = .ok ({ s with opCount := s.opCount + 1 }, s.file.pos) := by
  simp [FSink.seek_current, h]

theorem write_all_ok (s : FSink) (b : List Nat) (h : s.failsAt = none) :
    s.write_all b = .ok { s with file := s.file.writeBytes b
                                 trace := s.trace ++ [(s.file.pos, b)]
                                 opCount := s.opCount + 1 } := by
  simp [FSink.write_all, h]

theorem seek_start_ok (s : FSink) (p : Nat) (h : s.failsAt = none) :
    s.seek_start p
      = .ok { s with file := { s.file with pos := p }
                     opCount := s.opCount + 1 } := by
  simp [FSink.seek_start, h]

theorem compress_block_mem (c : Compressor) (key : OrderingKey)
    (info : BlockInfo) (data : List Nat) (cfn : List Nat → List Nat)
    (t : CompressTask) (ht : t ∈ (c.compress_block key info data cfn).queue) :
    t ∈ c.queue ∨
    t = { ordering_key := .Empty, buf := data, block_info := info } ∨
    t = { ordering_key := key, buf := cfn data, block_info := info } := by
  unfold Compressor.compress_block at ht
  split at ht <;> rcases List.mem_append.mp ht with h | h
  · exact Or.inl h
  · right; left; simpa using h
  · exact Or.inl h
  · right; right; simpa using h

/-- A successful sink step appends the compressed bytes at the end of the
file and preserves the sink invariant. -/
theorem wdum_ok_strong (s : FSink) (m : FileMeta) (k : Nat)
    (task : CompressTask) (hs : sinkOk s) (hb : task.buf.length < 2 ^ 32) :
    ∃ s' m', write_data_and_update_meta s m k task = .ok (s', m') ∧
      sinkOk s' ∧ SinkAppends s s' := by
  obtain ⟨hfail, hpos, hge⟩ := hs
  simp only [write_data_and_update_meta, generate_meta, Outcome.bind,
    seek_current_ok, write_all_ok, hfail, hb, if_pos]
  refine ⟨_, _, rfl, ⟨?_, ?_, ?_⟩, ⟨task.buf, [(s.file.pos, task.buf)], ?_, ?_⟩⟩
  · simp [hfail]
  · simp [writeBytes_at_end _ _ hpos, hpos]
  · simp [writeBytes_at_end _ _ hpos]
    omega
  · simp [writeBytes_at_end _ _ hpos]
  · simp

/-- The pipeline invariant survives one `compress_block` submission. -/
theorem compress_block_queueOk (c : Compressor) (key : OrderingKey)
    (info : BlockInfo) (data : List Nat) (cfn : List Nat → List Nat)
    (hq : ∀ t ∈ c.queue, ∀ k, t.ordering_key = OrderingKey.Key k →
      t.buf.length < 2 ^ 32)
    (hcf : (cfn data).length < 2 ^ 32) :
    queueOk (c.compress_block key info data cfn) := by
  intro t ht k hk
  rcases compress_block_mem c key info data cfn t ht with h | h | h
  · exact hq t h k hk
  · subst h; exact absurd hk (by simp)
  · subst h; exact hcf

/-- One flush preserves the sink and pipeline invariants and only appends
to the file. -/
theorem flush_ok_strong (s : FSink) (m : FileMeta) (comp : Compressor)
    (inn : Inner) (cf : Codecs → List Nat → List Nat)
    (hs : sinkOk s) (hq : queueOk comp) (hcf : cfOk cf) :
    ∃ r, flush_field_buffer s m comp inn cf = .ok r ∧
      sinkOk r.1 ∧ queueOk r.2.2.1 ∧ SinkAppends s r.1 := by
  have hpop := get_compr_block_mem comp
  have hq2 : queueOk (comp.get_compr_block).2 := fun t ht => hq t (hpop.1 t ht)
  cases hkey : (comp.get_compr_block).1.ordering_key with
  | Empty =>
      have hsink : sink_completed_task s m (comp.get_compr_block).1
          = .ok (s, m) := sink_completed_task_empty _ _ _ hkey
      simp only [flush_field_buffer, hsink, Outcome.bind]
      refine ⟨_, rfl, hs, ?_, SinkAppends.refl s⟩
      exact compress_block_queueOk _ _ _ _ _ hq2 (hcf _ _)
  | Key k =>
      have hmem : (comp.get_compr_block).1 ∈ comp.queue := by
        rcases hpop.2 with h | h
        · exact h
        · rw [hkey] at h; exact absurd h (by simp)
      have hb : (comp.get_compr_block).1.buf.length < 2 ^ 32 :=
        hq _ hmem k hkey
      obtain ⟨s', m', hwd, hs', hap⟩ := wdum_ok_strong s m k _ hs hb
      have hsink : sink_completed_task s m (comp.get_compr_block).1
          = .ok (s', m') := by
        simp only [sink_completed_task, hkey]
        exact hwd
      simp only [flush_field_buffer, hsink, Outcome.bind]
      refine ⟨_, rfl, hs', ?_, hap⟩
      exact compress_block_queueOk _ _ _ _ _ hq2 (hcf _ _)

/-- The leftover-flush loop of `finish` preserves the invariants. -/
theorem flushCols_ok_strong (cf : Codecs → List Nat → List Nat)
    (hcf : cfOk cf) :
    ∀ (cols : List Column) (s : FSink) (m : FileMeta) (comp : Compressor),
      sinkOk s → queueOk comp →
      ∃ r, flushColumnsAtFinish cf cols s m comp = .ok r ∧
        sinkOk r.1 ∧ queueOk r.2.2 ∧ SinkAppends s r.1 := by
  intro cols
  induction cols with
  | nil => exact fun s m comp hs hq => ⟨(s, m, comp), rfl, hs, hq, SinkAppends.refl s⟩
  | cons c rest ih =>
      intro s m comp hs hq
      cases c with
      | FixedColumn inn =>
          obtain ⟨r, hr, hs1, hq1, hap1⟩ := flush_ok_strong s m comp inn cf hs hq hcf
          obtain ⟨r2, hr2, hs2, hq2, hap2⟩ := ih r.1 r.2.1 r.2.2.1 hs1 hq1
          refine ⟨r2, ?_, hs2, hq2, hap1.trans hap2⟩
          simp only [flushColumnsAtFinish, hr, Outcome.bind, hr2]
      | VariableColumn p i =>
          obtain ⟨r, hr, hs1, hq1, hap1⟩ := flush_ok_strong s m comp p cf hs hq hcf
          obtain ⟨rb, hrb, hsb, hqb, hapb⟩ :=
            flush_ok_strong r.1 r.2.1 r.2.2.1 i cf hs1 hq1 hcf
          obtain ⟨r2, hr2, hs2, hq2, hap2⟩ := ih rb.1 rb.2.1 rb.2.2.1 hsb hqb
          refine ⟨r2, ?_, hs2, hq2, (hap1.trans hapb).trans hap2⟩
          simp only [flushColumnsAtFinish, hr, Outcome.bind, hrb, hr2]

/-- The drain loop of `finish` preserves the invariants. -/
theorem drain_ok_strong :
    ∀ (ts : List CompressTask) (s : FSink) (m : FileMeta),
      sinkOk s →
      (∀ t ∈ ts, ∀ k, t.ordering_key = OrderingKey.Key k →
        t.buf.length < 2 ^ 32) →
      ∃ r, drainTasks ts s m = .ok r ∧ sinkOk r.1 ∧ SinkAppends s r.1 := by
  intro ts
  induction ts with
  | nil => exact fun s m hs _ => ⟨(s, m), rfl, hs, SinkAppends.refl s⟩
  | cons t rest ih =>
      intro s m hs hts
      cases hkey : t.ordering_key with
      | Empty =>
          obtain ⟨r, hr, hs', hap⟩ := ih s m hs
            (fun x hx => hts x (by simp [hx]))
          exact ⟨r, by simp only [drainTasks, hkey, hr], hs', hap⟩
      | Key k =>
          obtain ⟨s', m', hwd, hs', hap⟩ :=
            wdum_ok_strong s m k t hs (hts t (by simp) k hkey)
          obtain ⟨r, hr, hs2, hap2⟩ := ih s' m' hs'
            (fun x hx => hts x (by simp [hx]))
          exact ⟨r, by simp only [drainTasks, hkey, hwd, Outcome.bind, hr],
            hs2, hap.trans hap2⟩

theorem take_FIS_append (a b c d : Nat) (X : List Nat) :
    (fileInfoBytes a b c d ++ X).take FILE_INFO_SIZE = fileInfoBytes a b c d := by
  conv_lhs => rw [← length_fileInfoBytes a b c d]
  exact List.take_left _ _

theorem drop_append_ge (A B : List Nat) (n : Nat) (h : A.length ≤ n) :
    (A ++ B).drop n = B.drop (n - A.length) := by
  induction A generalizing n with
  | nil => simp
  | cons a A ih =>
      cases n with
      | zero => simp at h
      | succ n =>
          simp only [List.cons_append, List.drop_succ_cons, List.length_cons]
          rw [ih n (by simpa using h)]
          simp [Nat.succ_sub_succ]

theorem drop_header (D json : List Nat) (a b c d : Nat)
    (h : FILE_INFO_SIZE ≤ D.length) :
    (fileInfoBytes a b c d ++ (D ++ json).drop FILE_INFO_SIZE).drop D.length
      = json := by
  rw [drop_append_ge _ _ _ (by rw [length_fileInfoBytes]; exact h)]
  rw [List.drop_drop, length_fileInfoBytes]
  have heq : FILE_INFO_SIZE + (D.length - FILE_INFO_SIZE) = D.length := by omega
  rw [heq, drop_append_ge _ _ _ (le_refl _)]
  simp

theorem length_header_data (D json : List Nat) (a b c d : Nat)
    (h : FILE_INFO_SIZE ≤ D.length) :
    (fileInfoBytes a b c d ++ (D ++ json).drop FILE_INFO_SIZE).length
      = D.length + json.length := by
  have h22 : FILE_INFO_SIZE = 22 := rfl
  simp only [List.length_append, length_fileInfoBytes, List.length_drop]
  rw [h22] at h ⊢
  omega

/-- The sink state the `finish` tail leaves behind, for a pre-tail sink
`s2` and catalog bytes `json`. -/
def tailSink (s2 : FSink) (json : List Nat) : FSink :=
  { file := { data := fileInfoBytes 1 0 s2.file.pos (calc_crc_for_meta_bytes json)
                ++ (s2.file.data ++ json).drop FILE_INFO_SIZE
              pos := FILE_INFO_SIZE }
    trace := s2.trace ++ [(s2.file.pos, json),
      (0, fileInfoBytes 1 0 s2.file.pos (calc_crc_for_meta_bytes json))]
    failsAt := none
    opCount := s2.opCount + 5 }

/-- The explicit effect of the `finish` tail on a healthy sink: catalog at
the current offset, header patched last. -/
theorem finish_tail_ok (s2 : FSink) (m2 : FileMeta) (sm : FileMeta → List Nat)
    (hfail : s2.failsAt = none) (hpos : s2.file.pos = s2.file.data.length) :
    finish_tail s2 m2 sm = .ok
      ({ file_meta := m2, columns := [], compressor := Compressor.new
         inner := tailSink s2 (sm m2) },
       s2.file.pos + (sm m2).length) := by
  simp only [finish_tail, seek_current_ok, write_all_ok, seek_start_ok,
    hfail, Outcome.bind]
  rw [writeBytes_at_end _ _ hpos]
  rw [writeBytes_at_zero _ _ rfl]
  simp only [tailSink, length_fileInfoBytes]
  norm_num

/-- C9: after `finish` returns on a healthy writer, the bytes at offset 0
form the `FileInfo` header — magic "geeBAM10", version (1,0) (these are the
head of `fileInfoBytes`), catalog offset and catalog CRC32 — where the
catalog offset is the file offset at which the catalog JSON was written,
the bytes from that offset to EOF are exactly the catalog JSON, the stored
CRC32 is the CRC32 of exactly those bytes, and the header write is the last
write performed, after the catalog write. -/
theorem finish_header_and_catalog (w : WriterState)
    (cf : Codecs → List Nat → List Nat) (sm : FileMeta → List Nat)
    (hs : sinkOk w.inner) (hq : queueOk w.compressor) (hcf : cfOk cf) :
    ∃ w' total catOff, Writer.finish w cf sm = .ok (w', total) ∧
      FILE_INFO_SIZE ≤ catOff ∧
      total = catOff + (sm w'.file_meta).length ∧
      w'.inner.file.data.length = total ∧
      w'.inner.file.data.take FILE_INFO_SIZE
        = fileInfoBytes 1 0 catOff (calc_crc_for_meta_bytes (sm w'.file_meta)) ∧
      w'.inner.file.data.drop catOff = sm w'.file_meta ∧
      calc_crc_for_meta_bytes (w'.inner.file.data.drop catOff)
        = calc_crc_for_meta_bytes (sm w'.file_meta) ∧
      (∃ mid, w'.inner.trace = w.inner.trace ++ mid
          ++ [(catOff, sm w'.file_meta),
              (0, fileInfoBytes 1 0 catOff
                (calc_crc_for_meta_bytes (sm w'.file_meta)))]) := by
  obtain ⟨r, hfl, hs1, hq1, hap1⟩ :=
    flushCols_ok_strong cf hcf w.columns w.inner w.file_meta w.compressor hs hq
  obtain ⟨r2, hdr, hs2, hap2⟩ := drain_ok_strong (r.2.2.finish).1 r.1 r.2.1 hs1
    (fun t ht k hk => hq1 t (by simpa [Compressor.finish] using ht) k hk)
  have htail := finish_tail_ok r2.1 r2.2 sm hs2.1 hs2.2.1
  have hge : FILE_INFO_SIZE ≤ r2.1.file.data.length := hs2.2.1 ▸ hs2.2.2
  refine ⟨⟨r2.2, [], Compressor.new, tailSink r2.1 (sm r2.2)⟩,
    r2.1.file.pos + (sm r2.2).length, r2.1.file.pos,
    ?_, hs2.2.2, rfl, ?_, ?_, ?_, ?_, ?_⟩
  · simp only [Writer.finish, hfl, Outcome.bind, hdr, htail]
  · simp only [tailSink]
    rw [hs2.2.1]
    exact length_header_data _ _ _ _ _ _ hge
  · simp only [tailSink]
    exact take_FIS_append _ _ _ _ _
  · simp only [tailSink]
    rw [hs2.2.1]
    exact drop_header _ _ _ _ _ _ hge
  · simp only [tailSink]
    rw [hs2.2.1]
    rw [drop_header _ _ _ _ _ _ hge]
  · obtain ⟨a1, e1, hd1, ht1⟩ := hap1
    obtain ⟨a2, e2, hd2, ht2⟩ := hap2
    refine ⟨e1 ++ e2, ?_⟩
    simp only [tailSink]
    rw [ht2, ht1]
    simp

/-- A drained, healthy writer for the C9 witness. -/
def c9w : WriterState :=
  { file_meta := FileMeta.new .Gzip [], columns := [], compressor := ⟨[]⟩
    inner := { file := { data := List.replicate 22 0, pos := 22 }
               trace := [], failsAt := none, opCount := 0 } }

/-- C9 witness: a concrete healthy writer with a one-byte catalog
serialization satisfies the hypotheses and yields the header/catalog/CRC
layout. -/
theorem finish_header_and_catalog_witness :
    (sinkOk c9w.inner ∧ queueOk c9w.compressor ∧
      cfOk (fun _ _ => ([] : List Nat))) ∧
    (∃ w' total catOff,
      Writer.finish c9w (fun _ _ => []) (fun _ => [42]) = .ok (w', total) ∧
      FILE_INFO_SIZE ≤ catOff ∧
      total = catOff + ([42] : List Nat).length ∧
      w'.inner.file.data.length = total ∧
      w'.inner.file.data.take FILE_INFO_SIZE
        = fileInfoBytes 1 0 catOff (calc_crc_for_meta_bytes [42]) ∧
      w'.inner.file.data.drop catOff = [42] ∧
      calc_crc_for_meta_bytes (w'.inner.file.data.drop catOff)
        = calc_crc_for_meta_bytes [42] ∧
      (∃ mid, w'.inner.trace = c9w.inner.trace ++ mid
          ++ [(catOff, [42]),
              (0, fileInfoBytes 1 0 catOff (calc_crc_for_meta_bytes [42]))])) :=
  ⟨⟨⟨rfl, by simp [c9w], by simp [c9w, FILE_INFO_SIZE]⟩,
    fun t ht => by simp [c9w] at ht,
    fun c d => by simp⟩,
   finish_header_and_catalog c9w (fun _ _ => []) (fun _ => [42])
     ⟨rfl, by simp [c9w], by simp [c9w, FILE_INFO_SIZE]⟩
     (fun t ht => by simp [c9w] at ht)
     (fun c d => by simp)⟩

end GBam
